import Mathlib

/-!
# Image-Deleter: the asset selection and filtering engine of `App.js`

A shallow embedding of the pure and state-passing logic of `src/App.js`:
the merge of library and imported assets, the filter, the random pick, the
keep/delete handlers, the deletion flush and the import handler.

Conventions of the embedding.

* JavaScript numbers that the program treats as integers (`creationTime`,
  `Date.now()`, `recentDays`, years) are `Int`.  The arithmetic of the
  `recent` filter is double-precision arithmetic (`JsNumber`), each result
  rounded to the nearest double; an `Int` that is not a double stands for
  the double nearest to it.  Elsewhere the integer arithmetic is exact.
* The value of `Math.random()` is a rational `r`; the program relies on
  `0 ≤ r < 1`, which theorems take as a hypothesis.
* A JavaScript `Set` of ids is the list of its elements in insertion order.
* React state is the record `Session`.  A handler created by `useCallback`
  reads the values captured at the render that created it (`rd`) and applies
  its functional updates to the pending state (`prev`); on the ordinary
  button path both are the same record.
* Calls to the host (`MediaLibrary`, `Alert`) are answered by an explicit
  record of responses and are logged as a list of `HostCall`.
* `new Date(ms)` is the proleptic Gregorian calendar in local time, with the
  offset from UTC a parameter `tz`; an out-of-range time value is an invalid
  date, whose getters return `NaN`.
-/

namespace ImageDeleter

/-! ## Data model -/

/-- One photo record.  Optional JavaScript fields are `Option`, with `none`
standing for `undefined`. -/
structure Asset where
  id : String
  uri : String
  creationTime : Int
  canDelete : Option Bool
  isPicked : Option Bool
  isFavorite : Option Bool
  favorite : Option Bool
deriving DecidableEq, Repr

/-- A JavaScript `Set` of strings, kept as its elements in insertion order. -/
abbrev JsSet := List String

namespace JsSet

/-- `set.has(x)`. -/
def has (s : JsSet) (x : String) : Bool := decide (x ∈ s)

/-- `set.add(x)`: appends `x` unless it is already present. -/
def add (s : JsSet) (x : String) : JsSet := if x ∈ s then s else s ++ [x]

/-- `set.size`. -/
def size (s : JsSet) : Nat := s.length

end JsSet

/-- JavaScript truthiness of an optional boolean field. -/
def truthy (b : Option Bool) : Bool := b == some true

/-! ## Calendar fields of `new Date(ms)` -/

/-- Milliseconds per day. -/
def msPerDay : Int := 86400000

/-- The largest time value a `Date` can hold; beyond it the date is invalid
and every getter returns `NaN`. -/
def maxTimeValue : Int := 8640000000000000

/-- Whether `new Date(ms)` is a valid date. -/
def dateValid (ms : Int) : Bool := decide (-maxTimeValue ≤ ms ∧ ms ≤ maxTimeValue)

/-- Year and month (1 to 12) of the proleptic Gregorian calendar for a count
of days since 1970-01-01. -/
def civilFromDays (days : Int) : Int × Int :=
  let z := days + 719468
  let era := z / 146097
  let doe := z - era * 146097
  let yoe := (doe - doe / 1460 + doe / 36524 - doe / 146096) / 365
  let y := yoe + era * 400
  let doy := doe - (365 * yoe + yoe / 4 - yoe / 100)
  let mp := (5 * doy + 2) / 153
  let m := if mp < 10 then mp + 3 else mp - 9
  (if m ≤ 2 then y + 1 else y, m)

/-- Local time of a time value: `tz t` is the offset of local time from UTC,
in milliseconds, in force at `t`. -/
def localTime (tz : Int → Int) (ms : Int) : Int := ms + tz ms

/-- `new Date(ms).getFullYear()`, `none` standing for `NaN`. -/
def getFullYear (tz : Int → Int) (ms : Int) : Option Int :=
  if dateValid ms then some (civilFromDays (localTime tz ms / msPerDay)).1 else none

/-- `new Date(ms).getMonth()` (0 to 11), `none` standing for `NaN`. -/
def getMonth (tz : Int → Int) (ms : Int) : Option Int :=
  if dateValid ms then some ((civilFromDays (localTime tz ms / msPerDay)).2 - 1) else none

/-- `String(x)` of a number that is an integer or `NaN`. -/
def numberToString : Option Int → String
  | some n => toString n
  | none => "NaN"

/-- `s.padStart(2, '0')`. -/
def padStart2 (s : String) : String :=
  if s.length < 2 then String.mk (List.replicate (2 - s.length) '0') ++ s else s

/-- `getYearValue` of `App.js`. -/
def getYearValue (tz : Int → Int) (asset : Asset) : Option Int :=
  getFullYear tz (asset.creationTime * 1000)

/-- `getMonthKey` of `App.js`. -/
def getMonthKey (tz : Int → Int) (asset : Asset) : String :=
  let ms := asset.creationTime * 1000
  let month := padStart2 (numberToString ((getMonth tz ms).map (· + 1)))
  numberToString (getFullYear tz ms) ++ "-" ++ month

/-! ## Double-precision arithmetic on integers -/

/-- A JavaScript number whose value is an integer, or one of the non-finite
values. -/
inductive JsNumber where
  | finite (n : Int)
  | posInf
  | negInf
  | nan
deriving DecidableEq, Repr

/-- The spacing of the doubles around `a`: the least power of two `u`, from
`u` on, with `a / u < 2 ^ 53`. -/
def ulpFrom (a : Nat) : Nat → Nat → Nat
  | 0, u => u
  | fuel + 1, u => if a / u < 2 ^ 53 then u else ulpFrom a fuel (2 * u)

/-- The double nearest to a natural number, ties going to the even
significand; a natural number below `2 ^ 53` is a double. -/
def roundNat (a : Nat) : Nat :=
  let ulp := ulpFrom a a 1
  let q := a / ulp
  let rem := a % ulp
  if 2 * rem > ulp ∨ (2 * rem = ulp ∧ q % 2 = 1) then (q + 1) * ulp else q * ulp

/-- The bound `2 ^ 1024` from which a rounded magnitude is `Infinity`. -/
def doubleLimit : Nat := 2 ^ 256 * 2 ^ 256 * 2 ^ 256 * 2 ^ 256

/-- The JavaScript number an exact integer result is rounded to. -/
def JsNumber.ofInt (n : Int) : JsNumber :=
  let m := roundNat n.natAbs
  if m ≥ doubleLimit then (if n < 0 then .negInf else .posInf)
  else .finite (if n < 0 then -(m : Int) else (m : Int))

/-- The sign of a number that is not `NaN`. -/
def JsNumber.sign : JsNumber → Int
  | .finite n => Int.sign n
  | .posInf => 1
  | .negInf => -1
  | .nan => 0

/-- `x * y`. -/
def JsNumber.mul (x y : JsNumber) : JsNumber :=
  match x, y with
  | .nan, _ => .nan
  | _, .nan => .nan
  | .finite a, .finite b => .ofInt (a * b)
  | x, y =>
    if x.sign * y.sign = 0 then .nan
    else if x.sign * y.sign > 0 then .posInf
    else .negInf

/-- `x - y`. -/
def JsNumber.sub (x y : JsNumber) : JsNumber :=
  match x, y with
  | .nan, _ => .nan
  | _, .nan => .nan
  | .finite a, .finite b => .ofInt (a - b)
  | .posInf, .posInf => .nan
  | .negInf, .negInf => .nan
  | .posInf, _ => .posInf
  | .negInf, _ => .negInf
  | .finite _, .posInf => .negInf
  | .finite _, .negInf => .posInf

/-- `x >= y`. -/
def JsNumber.ge (x y : JsNumber) : Bool :=
  match x, y with
  | .nan, _ => false
  | _, .nan => false
  | .finite a, .finite b => decide (a ≥ b)
  | .posInf, _ => true
  | _, .negInf => true
  | _, _ => false

/-- `now - recentDays * 24 * 60 * 60 * 1000` as `filterAssets` computes it,
each operation rounded to a double. -/
def recentCutoff (now recentDays : Int) : JsNumber :=
  (JsNumber.ofInt now).sub
    (((((JsNumber.ofInt recentDays).mul (.finite 24)).mul (.finite 60)).mul (.finite 60)).mul
      (.finite 1000))

/-- `creationTime * 1000` as `filterAssets` computes it. -/
def creationMs (creationTime : Int) : JsNumber :=
  (JsNumber.ofInt creationTime).mul (.finite 1000)

/-! ## The filter -/

/-- `filterAssets` of `App.js`; `now` is the value of `Date.now()`.
`selectedMonthKey` is `null` (`none`) or a string, `selectedYear` is `null`
(`none`) or a number; the empty string and `0` are falsy.  The comparison of
the `recent` mode is made on doubles. -/
def filterAssets (tz : Int → Int) (now : Int) (assets : List Asset) (hiddenSet : JsSet)
    (filterMode : String) (selectedMonthKey : Option String) (selectedYear : Option Int)
    (recentDays : Int) : List Asset :=
  let recentCutoff := recentCutoff now recentDays
  assets.filter fun asset =>
    if hiddenSet.has asset.id then false
    else if filterMode = "month" then
      match selectedMonthKey with
      | some key => if key ≠ "" then getMonthKey tz asset == key else false
      | none => false
    else if filterMode = "year" then
      match selectedYear with
      | some year => if year ≠ 0 then getYearValue tz asset == some year else false
      | none => false
    else if filterMode = "recent" then
      (creationMs asset.creationTime).ge recentCutoff
    else if filterMode = "favorites" then
      asset.isFavorite == some true || asset.favorite == some true
    else true

/-! ## Session state -/

/-- The React state of `App` that the engine reads and writes. -/
structure Session where
  allAssets : List Asset
  pickedAssets : List Asset
  hiddenIds : JsSet
  deleteQueue : JsSet
  isDeleting : Bool
  filterMode : String
  selectedMonthKey : Option String
  selectedYear : Option Int
  recentDays : Int
  currentAssetId : Option String
deriving DecidableEq, Repr

/-- The state created by the `useState` initialisers. -/
def Session.initial : Session :=
  { allAssets := [], pickedAssets := [], hiddenIds := [], deleteQueue := [],
    isDeleting := false, filterMode := "all", selectedMonthKey := none,
    selectedYear := none, recentDays := 30, currentAssetId := none }

/-- An exception thrown by the JavaScript code. -/
inductive JsError where
  | typeError
  | rejected (message : String)
deriving DecidableEq, Repr

/-! ## The merged view -/

/-- `x || 0` for a number `x`. -/
def orZero (x : Int) : Int := if x = 0 then 0 else x

/-- The comparator passed to `sort` in `combinedAssets`. -/
def compareCreation (a b : Asset) : Int := orZero b.creationTime - orZero a.creationTime

/-- `Array.prototype.sort(cmp)`: a stable sort that puts `a` before `b` when
`cmp a b < 0` and keeps their order when `cmp a b = 0`. -/
def jsSort {α : Type} (cmp : α → α → Int) (l : List α) : List α :=
  l.insertionSort fun a b => cmp a b ≤ 0

/-- `combinedAssets` of `App`: the sorted concatenation of both collections. -/
def combinedAssets (allAssets pickedAssets : List Asset) : List Asset :=
  jsSort compareCreation (allAssets ++ pickedAssets)

/-- `combinedAssets` as seen by a render of the state `s`. -/
def Session.combined (s : Session) : List Asset := combinedAssets s.allAssets s.pickedAssets

/-- `filteredAssets` of `App` as seen by a render of the state `s`. -/
def filteredAssets (tz : Int → Int) (now : Int) (s : Session) : List Asset :=
  filterAssets tz now s.combined s.hiddenIds s.filterMode s.selectedMonthKey s.selectedYear
    s.recentDays

/-! ## Selection -/

/-- `list[i]` for a number `i` that is an integer; `none` is `undefined`. -/
def jsIndex {α : Type} (l : List α) (i : Int) : Option α :=
  if i < 0 then none else l[i.toNat]?

/-- `pickRandomAsset(list)`: the value it passes to `setCurrentAssetId`, where
`r` is the value of `Math.random()`.  Reading `.id` of `undefined` throws. -/
def pickRandomAsset (r : ℚ) (list : List Asset) : Except JsError (Option String) :=
  if list.length = 0 then .ok none
  else
    match jsIndex list ⌊r * (list.length : ℚ)⌋ with
    | some next => .ok (some next.id)
    | none => .error .typeError

/-- What a synchronous handler leaves behind: the state after the updates it
queued, and the exception it threw, if any.  Updates queued before a throw
are still applied. -/
structure Handled where
  state : Session
  thrown : Option JsError
deriving DecidableEq, Repr

/-- `markHidden(assetId)`: the functional update of `hiddenIds`. -/
def markHidden (assetId : String) (prev : Session) : Session :=
  { prev with hiddenIds := prev.hiddenIds.add assetId }

/-- The list `nextList` that `pickNextAfterHide(assetId, assetsOverride)`
computes from the values captured at the render `rd`; an array is truthy
even when empty, so an override is always used when given. -/
def nextListAfterHide (tz : Int → Int) (now : Int) (rd : Session) (assetId : String)
    (assetsOverride : Option (List Asset)) : List Asset :=
  let hiddenNext := rd.hiddenIds.add assetId
  let baseAssets := match assetsOverride with
    | some l => l
    | none => rd.combined
  filterAssets tz now baseAssets hiddenNext rd.filterMode rd.selectedMonthKey rd.selectedYear
    rd.recentDays

/-- `pickNextAfterHide(assetId, assetsOverride)`. -/
def pickNextAfterHide (tz : Int → Int) (now : Int) (r : ℚ) (rd : Session) (assetId : String)
    (assetsOverride : Option (List Asset)) (prev : Session) : Handled :=
  match pickRandomAsset r (nextListAfterHide tz now rd assetId assetsOverride) with
  | .ok next => ⟨{ prev with currentAssetId := next }, none⟩
  | .error e => ⟨prev, some e⟩

/-- `handleKeep(asset)`; `none` is a `null` asset. -/
def handleKeep (tz : Int → Int) (now : Int) (r : ℚ) (rd : Session) (asset : Option Asset)
    (prev : Session) : Handled :=
  match asset with
  | none => ⟨prev, none⟩
  | some asset => pickNextAfterHide tz now r rd asset.id none (markHidden asset.id prev)

/-- The test `asset.canDelete === false || asset.isPicked` of `handleDelete`. -/
def isImported (asset : Asset) : Bool := asset.canDelete == some false || truthy asset.isPicked

/-- `handleDelete(asset)`; `none` is a `null` asset.  `new Set([...prev, id])`
is `prev.add id`. -/
def handleDelete (tz : Int → Int) (now : Int) (r : ℚ) (rd : Session) (asset : Option Asset)
    (prev : Session) : Handled :=
  match asset with
  | none => ⟨prev, none⟩
  | some asset =>
    if isImported asset then
      let s1 := markHidden asset.id prev
      let s2 := { s1 with pickedAssets := s1.pickedAssets.filter fun item => item.id ≠ asset.id }
      pickNextAfterHide tz now r rd asset.id none s2
    else
      let s1 := { prev with deleteQueue := prev.deleteQueue.add asset.id }
      let s2 := markHidden asset.id s1
      pickNextAfterHide tz now r rd asset.id none s2

/-! ## The swipe gesture -/

/-- `SWIPE_THRESHOLD` of `App.js`. -/
def SWIPE_THRESHOLD : ℚ := 120

/-- `onPanResponderRelease` of `panResponder`, with the callback of the
animation it starts.  `useRef(PanResponder.create(...)).current` keeps the
responder built in the first render, so the `handleKeep` and `handleDelete`
it calls are the ones created in the render of `Session.initial`, whatever
the state has become.  `dx` is `gesture.dx`, `asset` is
`currentAssetRef.current` and `prev` is the state the updates apply to. -/
def onPanResponderRelease (tz : Int → Int) (now : Int) (r : ℚ) (dx : ℚ) (asset : Option Asset)
    (prev : Session) : Handled :=
  if dx > SWIPE_THRESHOLD then
    match asset with
    | some a => handleKeep tz now r Session.initial (some a) prev
    | none => ⟨prev, none⟩
  else if dx < -SWIPE_THRESHOLD then
    match asset with
    | some a => handleDelete tz now r Session.initial (some a) prev
    | none => ⟨prev, none⟩
  else ⟨prev, none⟩

/-! ## The deletion flush -/

/-- The response of a permission call of `MediaLibrary`. -/
structure PermissionResponse where
  status : String
  accessPrivileges : Option String
deriving DecidableEq, Repr

/-- A call the engine makes to the host. -/
inductive HostCall where
  | getPermissions
  | requestPermissions
  | presentPermissionsPicker
  | deleteAssets (ids : List String)
  | alert (title : String)
deriving DecidableEq, Repr

/-- The answers of the host to the calls of one `executeDeletions`: the first
and the second `getPermissionsAsync`, `requestPermissionsAsync`,
`presentPermissionsPickerAsync` and `deleteAssetsAsync`; `.error` is a
rejected promise. -/
structure MediaLibrary where
  current : Except JsError PermissionResponse
  next : Except JsError PermissionResponse
  picker : Except JsError Unit
  updated : Except JsError PermissionResponse
  deleteAssets : List String → Except JsError Unit

/-- JavaScript truthiness of an optional string. -/
def truthyString : Option String → Bool
  | some s => s ≠ ""
  | none => false

/-- `ensureDeletePermission` of `executeDeletions`: the calls it makes and
the boolean it resolves to, or the rejection it passes on.  A rejection of
`presentPermissionsPickerAsync` is caught and ignored, so `host.picker` does
not influence the result. -/
def ensureDeletePermission (host : MediaLibrary) : List HostCall × Except JsError Bool :=
  match host.current with
  | .error e => ([.getPermissions], .error e)
  | .ok current =>
    if current.status ≠ "granted" then
      match host.next with
      | .error e => ([.getPermissions, .requestPermissions], .error e)
      | .ok next =>
        if next.status ≠ "granted" then ([.getPermissions, .requestPermissions], .ok false)
        else
          ([.getPermissions, .requestPermissions],
            .ok (next.accessPrivileges == some "all" || next.accessPrivileges == none))
    else if truthyString current.accessPrivileges && current.accessPrivileges != some "all" then
      match host.updated with
      | .error e => ([.getPermissions, .presentPermissionsPicker, .getPermissions], .error e)
      | .ok updated =>
        ([.getPermissions, .presentPermissionsPicker, .getPermissions],
          .ok (updated.accessPrivileges == some "all"))
    else ([.getPermissions], .ok true)

/-- How one `executeDeletions` ended. -/
inductive FlushOutcome where
  | skipped
  | permissionDenied
  | deleted
  | failed (e : JsError)
deriving DecidableEq, Repr

/-- The result of one `executeDeletions`. -/
structure Flushed where
  state : Session
  calls : List HostCall
  outcome : FlushOutcome
deriving DecidableEq, Repr

/-- `executeDeletions`: `rd` is the render whose `deleteQueue` the callback
captured, `prev` the state its updates apply to. -/
def executeDeletions (host : MediaLibrary) (rd prev : Session) : Flushed :=
  if rd.deleteQueue.size = 0 then ⟨prev, [], .skipped⟩
  else
    let s1 := { prev with isDeleting := true }
    match ensureDeletePermission host with
    | (calls, .error e) =>
      ⟨{ s1 with isDeleting := false }, calls ++ [.alert "Delete failed"], .failed e⟩
    | (calls, .ok false) =>
      ⟨{ s1 with isDeleting := false }, calls ++ [.alert "Full access required"],
        .permissionDenied⟩
    | (calls, .ok true) =>
      let idsToDelete := rd.deleteQueue
      match host.deleteAssets idsToDelete with
      | .error e =>
        ⟨{ s1 with isDeleting := false },
          calls ++ [.deleteAssets idsToDelete, .alert "Delete failed"], .failed e⟩
      | .ok _ =>
        ⟨{ s1 with
            allAssets := s1.allAssets.filter fun item => !rd.deleteQueue.has item.id
            deleteQueue := []
            isDeleting := false },
          calls ++ [.deleteAssets idsToDelete, .alert "Success"], .deleted⟩

/-! ## Import -/

/-- The answers of the host to one `handleImportPhotos`: the permission
status, whether the picker was cancelled, the uris of the picked images, and
`clock k`, the value of the `k`-th call of `Date.now()` (counted from 0). -/
structure ImagePicker where
  permissionStatus : String
  canceled : Bool
  uris : List String
  clock : Nat → Int

/-- The records `result.assets.map(...)` builds for the picked images from
index `index` on; the callback reads `Date.now()` once per image. -/
def importedFrom (clock : Nat → Int) (nowSeconds : Int) : Nat → List String → List Asset
  | _, [] => []
  | index, uri :: rest =>
    { id := "picked-" ++ toString (clock (index + 1)) ++ "-" ++ toString index
      uri := uri
      creationTime := nowSeconds
      canDelete := some false
      isPicked := some true
      isFavorite := none
      favorite := none } :: importedFrom clock nowSeconds (index + 1) rest

/-- `handleImportPhotos`. -/
def handleImportPhotos (host : ImagePicker) (prev : Session) : Session :=
  if host.permissionStatus ≠ "granted" then prev
  else if host.canceled then prev
  else
    let nowSeconds := host.clock 0 / 1000
    let imported := importedFrom host.clock nowSeconds 0 host.uris
    { prev with pickedAssets := imported ++ prev.pickedAssets }

/-! ## Sequences of user operations -/

/-- One user operation, with the render its handler was created in and the
values the host supplies to it. -/
inductive Op where
  | keep (now : Int) (r : ℚ) (rd : Session) (asset : Option Asset)
  | delete (now : Int) (r : ℚ) (rd : Session) (asset : Option Asset)
  | importPhotos (host : ImagePicker)

/-- The state after one operation. -/
def Op.apply (tz : Int → Int) (op : Op) (s : Session) : Session :=
  match op with
  | .keep now r rd asset => (handleKeep tz now r rd asset s).state
  | .delete now r rd asset => (handleDelete tz now r rd asset s).state
  | .importPhotos host => handleImportPhotos host s

/-- The state after a sequence of operations, first to last. -/
def runOps (tz : Int → Int) (ops : List Op) (s : Session) : Session :=
  ops.foldl (fun acc op => op.apply tz acc) s

/-- The assets that a sequence of operations passes to `handleDelete`. -/
def deletedAssets : List Op → List Asset
  | [] => []
  | .delete _ _ _ (some asset) :: rest => asset :: deletedAssets rest
  | _ :: rest => deletedAssets rest

/-- The hosts of the import operations of a sequence, first to last. -/
def importHosts : List Op → List ImagePicker
  | [] => []
  | .importPhotos host :: rest => host :: importHosts rest
  | _ :: rest => importHosts rest

/-- The readings of `Date.now()` that one import puts into its ids (one per
picked image) all differ from those the other puts into its ids. -/
def clocksApart (h1 h2 : ImagePicker) : Prop :=
  ∀ k l : Nat, k < h1.uris.length → l < h2.uris.length → h1.clock (k + 1) ≠ h2.clock (l + 1)

/-! ## The filter policy of the specification -/

/-- The policy of the specification for one asset, by mode: `all` keeps it,
`month` keeps it when its month key equals `selectedMonthKey` (nothing when
unset), `year` when its year equals `selectedYear` (nothing when unset),
`recent` when `creationTime >= now - recentDays days`, `favorites` when
`isFavorite` or `favorite` is true; an unrecognised mode is `all`. -/
def referencePolicy (tz : Int → Int) (now : Int) (filterMode : String)
    (selectedMonthKey : Option String) (selectedYear : Option Int) (recentDays : Int)
    (asset : Asset) : Bool :=
  if filterMode = "month" then
    match selectedMonthKey with
    | some key => getMonthKey tz asset == key
    | none => false
  else if filterMode = "year" then
    match selectedYear with
    | some year => getYearValue tz asset == some year
    | none => false
  else if filterMode = "recent" then
    decide (asset.creationTime * 1000 ≥ now - recentDays * 86400000)
  else if filterMode = "favorites" then
    asset.isFavorite == some true || asset.favorite == some true
  else true

/-- The reference filter of the specification: the non-hidden assets that
the policy of the mode keeps, in the order of the input. -/
def referenceFilter (tz : Int → Int) (now : Int) (assets : List Asset) (hiddenSet : JsSet)
    (filterMode : String) (selectedMonthKey : Option String) (selectedYear : Option Int)
    (recentDays : Int) : List Asset :=
  assets.filter fun asset =>
    decide (asset.id ∉ hiddenSet) &&
      referencePolicy tz now filterMode selectedMonthKey selectedYear recentDays asset

/-! ## The re-pick effect -/

/-- The effect of `App` that re-picks when the selection is no longer a
candidate: the value of `currentAssetId` after it ran, where `r` is the value
of `Math.random()`.  `!currentAssetId` holds for `null` and for the empty
string. -/
def repickEffect (r : ℚ) (filteredAssets : List Asset) (currentAssetId : Option String) :
    Except JsError (Option String) :=
  if filteredAssets.length = 0 then .ok none
  else if !truthyString currentAssetId ||
      !filteredAssets.any (fun asset => some asset.id == currentAssetId) then
    pickRandomAsset r filteredAssets
  else .ok currentAssetId

/-! ## Permission responses observed by the flush -/

/-- The permission responses `ensureDeletePermission` awaits, in the order
it receives them, up to the first rejected call. -/
def observedResponses (host : MediaLibrary) : List PermissionResponse :=
  match host.current with
  | .error _ => []
  | .ok current =>
    if current.status ≠ "granted" then
      match host.next with
      | .error _ => [current]
      | .ok next => [current, next]
    else if truthyString current.accessPrivileges && current.accessPrivileges != some "all" then
      match host.updated with
      | .error _ => [current]
      | .ok updated => [current, updated]
    else [current]

/-! ## Month facets -/

/-- `MONTHS` of `App.js`. -/
def MONTHS : List String :=
  ["Jan", "Feb", "Mar", "Apr", "May", "Jun", "Jul", "Aug", "Sep", "Oct", "Nov", "Dec"]

/-- The segments of a list of characters between occurrences of `sep`. -/
def splitChars (sep : Char) : List Char → List (List Char)
  | [] => [[]]
  | c :: cs =>
    if c = sep then [] :: splitChars sep cs
    else
      match splitChars sep cs with
      | seg :: rest => (c :: seg) :: rest
      | [] => [[c]]

/-- `s.split(sep)` for a one-character separator. -/
def jsSplit (sep : Char) (s : String) : List String :=
  (splitChars sep s.data).map String.mk

/-- The number a list of decimal digits denotes. -/
def decimalValue (cs : List Char) : Nat :=
  cs.foldl (fun acc c => 10 * acc + (c.toNat - '0'.toNat)) 0

/-- `Number(s)` for the strings `split` cuts out of a month key: a run of
decimal digits (the empty string is `0`), or `"NaN"`; `none` stands for `NaN`
and for `Number(undefined)`. -/
def jsNumber : Option String → Option Int
  | some s => if s.data.all Char.isDigit then some (decimalValue s.data : Int) else none
  | none => none

/-- A value interpolated into a template literal; `none` is `undefined`. -/
def interpolate : Option String → String
  | some s => s
  | none => "undefined"

/-- `formatMonthLabel` of `App.js`. -/
def formatMonthLabel (key : String) : String :=
  if key = "" then ""
  else
    let parts := jsSplit '-' key
    let year := parts[0]?
    let month := parts[1]?
    let name := match jsNumber month with
      | some n => jsIndex MONTHS (n - 1)
      | none => none
    interpolate name ++ " " ++ interpolate year

/-- An entry of `monthOptions`. -/
structure MonthOption where
  key : String
  label : String
deriving DecidableEq, Repr

/-- The comparator passed to `sort` in `monthOptions`: `a < b ? 1 : -1`.
Strings are compared character by character, which is the JavaScript order
on the ASCII strings that month keys are.  The keys come out of a `Set`, so
the comparator never meets two equal keys. -/
def compareKeys (a b : String) : Int := if a < b then 1 else -1

/-- The set `keys` that `monthOptions` collects, in insertion order. -/
def monthKeys (tz : Int → Int) (combined : List Asset) : JsSet :=
  combined.foldl (fun keys asset => keys.add (getMonthKey tz asset)) []

/-- `monthOptions` of `App` for the merged view `combined`. -/
def monthOptions (tz : Int → Int) (combined : List Asset) : List MonthOption :=
  (jsSort compareKeys (monthKeys tz combined)).map fun key =>
    { key := key, label := formatMonthLabel key }

/-- Whether a string is four decimal digits, `-`, and two decimal digits. -/
def isYearMonthKey (s : String) : Bool :=
  match s.data with
  | [a, b, c, d, e, f, g] =>
    a.isDigit && b.isDigit && c.isDigit && d.isDigit && e == '-' && f.isDigit && g.isDigit
  | _ => false

/-! ## Example data -/

/-- A host whose local time is UTC. -/
def utc : Int → Int := fun _ => 0

/-- A library asset as `requestPermissionAndLoad` stores it (`canDelete: true`). -/
def libraryAsset (id : String) (creationTime : Int) : Asset :=
  { id := id, uri := "", creationTime := creationTime, canDelete := some true,
    isPicked := none, isFavorite := none, favorite := none }

/-- An imported asset as `handleImportPhotos` stores it. -/
def importedAsset (id : String) (creationTime : Int) : Asset :=
  { id := id, uri := "", creationTime := creationTime, canDelete := some false,
    isPicked := some true, isFavorite := none, favorite := none }

/-- A session holding two library assets and one imported asset. -/
def sampleSession : Session :=
  { Session.initial with
    allAssets := [libraryAsset "a" 200, libraryAsset "b" 100]
    pickedAssets := [importedAsset "p" 150] }

/-- The permission response of full access. -/
def fullAccess : PermissionResponse := { status := "granted", accessPrivileges := some "all" }

/-- The permission response of a refusal. -/
def refused : PermissionResponse := { status := "denied", accessPrivileges := some "none" }

/-- A host that has granted full access and deletes what it is asked to. -/
def grantingHost : MediaLibrary :=
  { current := .ok fullAccess, next := .ok fullAccess, picker := .ok (),
    updated := .ok fullAccess, deleteAssets := fun _ => .ok () }

/-- A host that refuses the permission. -/
def denyingHost : MediaLibrary :=
  { current := .ok refused, next := .ok refused, picker := .ok (),
    updated := .ok refused, deleteAssets := fun _ => .ok () }

/-- A host that has granted full access and whose batch delete fails. -/
def failingHost : MediaLibrary :=
  { current := .ok fullAccess, next := .ok fullAccess, picker := .ok (),
    updated := .ok fullAccess, deleteAssets := fun _ => .error (.rejected "delete failed") }

/-- The sample session with the library asset `b` queued for deletion. -/
def queuedSession : Session :=
  { sampleSession with hiddenIds := ["b"], deleteQueue := ["b"] }

/-- A library asset of 15 January 2024 (UTC). -/
def assetA : Asset := libraryAsset "A" 1705276800

/-- A library asset of 20 February 2024 (UTC). -/
def assetB : Asset := libraryAsset "B" 1708387200

/-- A library asset of 10 February 2024 (UTC), marked `favorite`. -/
def assetC : Asset := { libraryAsset "C" 1707523200 with favorite := some true }

/-- An import of one image at a clock that always reads 5. -/
def stoppedClockImport : ImagePicker :=
  { permissionStatus := "granted", canceled := false, uris := ["u"], clock := fun _ => 5 }

/-- An import of one image at a clock that always reads 6. -/
def laterImport : ImagePicker :=
  { permissionStatus := "granted", canceled := false, uris := ["v"], clock := fun _ => 6 }

/-- A host whose first response is granted access without `accessPrivileges`. -/
def unscopedHost : MediaLibrary :=
  { current := .ok { status := "granted", accessPrivileges := none }
    next := .ok refused, picker := .ok (), updated := .ok refused
    deleteAssets := fun _ => .ok () }

/-! ## Auxiliary lemmas -/

theorem JsSet.mem_add_self (s : JsSet) (x : String) : x ∈ s.add x := by
  unfold JsSet.add
  split <;> simp_all

theorem JsSet.mem_add_iff (s : JsSet) (x y : String) : y ∈ s.add x ↔ y ∈ s ∨ y = x := by
  unfold JsSet.add
  split
  · constructor
    · exact Or.inl
    · rintro (h | h)
      · exact h
      · subst h; assumption
  · simp

theorem JsSet.has_eq_true_iff (s : JsSet) (x : String) : s.has x = true ↔ x ∈ s := by
  simp [JsSet.has]

/-- Every element of the output of `filterAssets` comes from its input and is
not hidden. -/
theorem mem_filterAssets_imp {tz : Int → Int} {now : Int} {assets : List Asset}
    {hiddenSet : JsSet} {filterMode : String} {selectedMonthKey : Option String}
    {selectedYear : Option Int} {recentDays : Int} {a : Asset}
    (h : a ∈ filterAssets tz now assets hiddenSet filterMode selectedMonthKey selectedYear
      recentDays) : a ∈ assets ∧ a.id ∉ hiddenSet := by
  unfold filterAssets at h
  rw [List.mem_filter] at h
  refine ⟨h.1, fun hmem => ?_⟩
  have hh : hiddenSet.has a.id = true := (JsSet.has_eq_true_iff _ _).2 hmem
  simp [hh] at h

theorem jsIndex_of_bounds {α : Type} (l : List α) (i : Int) (h0 : 0 ≤ i)
    (h1 : i < (l.length : Int)) : ∃ x ∈ l, jsIndex l i = some x := by
  have hlt : i.toNat < l.length := by omega
  refine ⟨l[i.toNat], List.getElem_mem hlt, ?_⟩
  unfold jsIndex
  rw [if_neg (by omega)]
  exact List.getElem?_eq_getElem hlt

/-- With `r` in `[0, 1)` the index `floor(r * length)` is within bounds. -/
theorem floor_mul_length_bounds (r : ℚ) (n : Nat) (hn : 0 < n) (h0 : 0 ≤ r) (h1 : r < 1) :
    0 ≤ ⌊r * (n : ℚ)⌋ ∧ ⌊r * (n : ℚ)⌋ < (n : Int) := by
  have hnq : (0 : ℚ) < (n : ℚ) := by exact_mod_cast hn
  constructor
  · exact Int.floor_nonneg.2 (mul_nonneg h0 hnq.le)
  · rw [Int.floor_lt]
    have : r * (n : ℚ) < 1 * (n : ℚ) := mul_lt_mul_of_pos_right h1 hnq
    simpa using this

/-- With `r` in `[0, 1)`, `pickRandomAsset` does not throw; it yields `null`
on the empty list and the id of an element of the list otherwise. -/
theorem pickRandomAsset_spec (r : ℚ) (list : List Asset) (h0 : 0 ≤ r) (h1 : r < 1) :
    (list = [] ∧ pickRandomAsset r list = .ok none) ∨
      ∃ a ∈ list, pickRandomAsset r list = .ok (some a.id) := by
  cases hl : list with
  | nil => left; exact ⟨rfl, by simp [pickRandomAsset]⟩
  | cons x xs =>
    right
    have hpos : 0 < (x :: xs).length := by simp
    obtain ⟨hb0, hb1⟩ := floor_mul_length_bounds r (x :: xs).length hpos h0 h1
    obtain ⟨a, ha, hidx⟩ := jsIndex_of_bounds (x :: xs) _ hb0 hb1
    refine ⟨a, ha, ?_⟩
    unfold pickRandomAsset
    rw [if_neg (by simp), hidx]

/-- With `r` in `[0, 1)`, `pickNextAfterHide` does not throw, changes only
`currentAssetId`, and never selects the id it hides. -/
theorem pickNextAfterHide_spec (tz : Int → Int) (now : Int) (r : ℚ) (rd : Session)
    (assetId : String) (ov : Option (List Asset)) (prev : Session) (h0 : 0 ≤ r) (h1 : r < 1) :
    ∃ next, pickNextAfterHide tz now r rd assetId ov prev
        = ⟨{ prev with currentAssetId := next }, none⟩ ∧ next ≠ some assetId := by
  unfold pickNextAfterHide
  rcases pickRandomAsset_spec r (nextListAfterHide tz now rd assetId ov) h0 h1 with
    ⟨_, hp⟩ | ⟨a, ha, hp⟩
  · exact ⟨none, by rw [hp], by simp⟩
  · refine ⟨some a.id, by rw [hp], ?_⟩
    have := (mem_filterAssets_imp ha).2
    intro heq
    apply this
    have : a.id = assetId := by simpa using heq
    rw [this]
    exact JsSet.mem_add_self _ _

/-- `pickNextAfterHide` changes at most `currentAssetId`. -/
theorem pickNextAfterHide_frame (tz : Int → Int) (now : Int) (r : ℚ) (rd : Session)
    (assetId : String) (ov : Option (List Asset)) (prev : Session) :
    ∃ cur, (pickNextAfterHide tz now r rd assetId ov prev).state
      = { prev with currentAssetId := cur } := by
  unfold pickNextAfterHide
  cases pickRandomAsset r (nextListAfterHide tz now rd assetId ov) with
  | ok next => exact ⟨next, rfl⟩
  | error e => exact ⟨prev.currentAssetId, rfl⟩

theorem handleKeep_deleteQueue (tz : Int → Int) (now : Int) (r : ℚ) (rd : Session)
    (asset : Option Asset) (prev : Session) :
    (handleKeep tz now r rd asset prev).state.deleteQueue = prev.deleteQueue := by
  cases asset with
  | none => rfl
  | some a =>
    obtain ⟨cur, h⟩ := pickNextAfterHide_frame tz now r rd a.id none (markHidden a.id prev)
    simp only [handleKeep]
    rw [h]
    rfl

theorem handleDelete_deleteQueue_imported (tz : Int → Int) (now : Int) (r : ℚ) (rd : Session)
    (asset : Asset) (prev : Session) (h : isImported asset = true) :
    (handleDelete tz now r rd (some asset) prev).state.deleteQueue = prev.deleteQueue := by
  obtain ⟨cur, hf⟩ := pickNextAfterHide_frame tz now r rd asset.id none
    { markHidden asset.id prev with
      pickedAssets := (markHidden asset.id prev).pickedAssets.filter
        fun item => item.id ≠ asset.id }
  simp only [handleDelete, h, if_true]
  rw [hf]
  rfl

theorem handleDelete_deleteQueue_library (tz : Int → Int) (now : Int) (r : ℚ) (rd : Session)
    (asset : Asset) (prev : Session) (h : isImported asset = false) :
    (handleDelete tz now r rd (some asset) prev).state.deleteQueue
      = prev.deleteQueue.add asset.id := by
  obtain ⟨cur, hf⟩ := pickNextAfterHide_frame tz now r rd asset.id none
    (markHidden asset.id { prev with deleteQueue := prev.deleteQueue.add asset.id })
  simp only [handleDelete, h]
  rw [if_neg (by simp), hf]
  rfl

theorem handleImportPhotos_deleteQueue (host : ImagePicker) (prev : Session) :
    (handleImportPhotos host prev).deleteQueue = prev.deleteQueue := by
  unfold handleImportPhotos
  split
  · rfl
  · split <;> rfl

/-- Every id in the queue after a sequence of operations was there before or
is the id of an asset that was passed to `handleDelete` and failed the test
`canDelete === false || isPicked`. -/
theorem runOps_deleteQueue_provenance (tz : Int → Int) (ops : List Op) :
    ∀ (s : Session) (id : String), id ∈ (runOps tz ops s).deleteQueue →
      id ∈ s.deleteQueue ∨ ∃ a ∈ deletedAssets ops, a.id = id ∧ isImported a = false := by
  induction ops with
  | nil => intro s id h; exact Or.inl h
  | cons op rest ih =>
    intro s id h
    have h2 : id ∈ (runOps tz rest (op.apply tz s)).deleteQueue := h
    rcases ih _ _ h2 with hq | ⟨a, ha, hid, himp⟩
    · cases op with
      | keep now r rd asset =>
        left
        simpa [Op.apply, handleKeep_deleteQueue] using hq
      | importPhotos host =>
        left
        simpa [Op.apply, handleImportPhotos_deleteQueue] using hq
      | delete now r rd asset =>
        cases asset with
        | none => left; simpa [Op.apply, handleDelete] using hq
        | some b =>
          cases hb : isImported b with
          | true =>
            left
            simpa [Op.apply, handleDelete_deleteQueue_imported tz now r rd b s hb] using hq
          | false =>
            simp only [Op.apply, handleDelete_deleteQueue_library tz now r rd b s hb,
              JsSet.mem_add_iff] at hq
            rcases hq with hq | hq
            · exact Or.inl hq
            · exact Or.inr ⟨b, by simp [deletedAssets], hq.symm, hb⟩
    · right
      refine ⟨a, ?_, hid, himp⟩
      cases op with
      | keep now r rd asset => simpa [deletedAssets] using ha
      | importPhotos host => simpa [deletedAssets] using ha
      | delete now r rd asset =>
        cases asset with
        | none => simpa [deletedAssets] using ha
        | some b => simp [deletedAssets, ha]

theorem isImported_of_canDelete_false (a : Asset) (h : a.canDelete = some false) :
    isImported a = true := by
  simp [isImported, h]

theorem orZero_eq (x : Int) : orZero x = x := by
  unfold orZero
  split
  · next h => exact h.symm
  · rfl

theorem compareCreation_le_iff (a b : Asset) :
    compareCreation a b ≤ 0 ↔ b.creationTime ≤ a.creationTime := by
  simp [compareCreation, orZero_eq]

theorem compareCreation_total : IsTotal Asset (fun a b => compareCreation a b ≤ 0) :=
  ⟨fun a b => by
    simp only [compareCreation_le_iff]
    exact le_total _ _⟩

theorem compareCreation_trans : IsTrans Asset (fun a b => compareCreation a b ≤ 0) :=
  ⟨fun a b c => by
    simp only [compareCreation_le_iff]
    exact fun h1 h2 => le_trans h2 h1⟩

/-- A sublist of the input whose elements are pairwise in comparator order
is a sublist of the sorted output. -/
theorem sublist_combinedAssets (lib imp c : List Asset)
    (hc : List.Sublist c (lib ++ imp))
    (hr : c.Pairwise fun a b => b.creationTime ≤ a.creationTime) :
    List.Sublist c (combinedAssets lib imp) := by
  unfold combinedAssets jsSort
  apply List.sublist_insertionSort _ hc
  exact hr.imp fun {a b} h => (compareCreation_le_iff a b).2 h

theorem isImported_iff (a : Asset) :
    isImported a = true ↔ a.canDelete = some false ∨ a.isPicked = some true := by
  simp [isImported, truthy]

theorem handleDelete_imported_state (tz : Int → Int) (now : Int) (r : ℚ) (rd : Session)
    (asset : Asset) (prev : Session) (h : isImported asset = true) :
    ∃ cur, (handleDelete tz now r rd (some asset) prev).state =
      { prev with
        hiddenIds := prev.hiddenIds.add asset.id
        pickedAssets := prev.pickedAssets.filter fun item => item.id ≠ asset.id
        currentAssetId := cur } := by
  obtain ⟨cur, hf⟩ := pickNextAfterHide_frame tz now r rd asset.id none
    { markHidden asset.id prev with
      pickedAssets := (markHidden asset.id prev).pickedAssets.filter
        fun item => item.id ≠ asset.id }
  refine ⟨cur, ?_⟩
  simp only [handleDelete, h, if_true]
  rw [hf]
  rfl

theorem handleDelete_library_state (tz : Int → Int) (now : Int) (r : ℚ) (rd : Session)
    (asset : Asset) (prev : Session) (h : isImported asset = false) :
    ∃ cur, (handleDelete tz now r rd (some asset) prev).state =
      { prev with
        deleteQueue := prev.deleteQueue.add asset.id
        hiddenIds := prev.hiddenIds.add asset.id
        currentAssetId := cur } := by
  obtain ⟨cur, hf⟩ := pickNextAfterHide_frame tz now r rd asset.id none
    (markHidden asset.id { prev with deleteQueue := prev.deleteQueue.add asset.id })
  refine ⟨cur, ?_⟩
  simp only [handleDelete, h]
  rw [if_neg (by simp), hf]
  rfl

theorem mem_combinedAssets (lib imp : List Asset) (x : Asset) :
    x ∈ combinedAssets lib imp ↔ x ∈ lib ∨ x ∈ imp := by
  unfold combinedAssets jsSort
  rw [List.mem_insertionSort, List.mem_append]

/-! ## Claims -/

/-- C1: in every filter mode and for every value of the other parameters, no
asset in the output of `filterAssets` has an id that is in the hidden set. -/
theorem filterAssets_excludes_hidden (tz : Int → Int) (now : Int) (assets : List Asset)
    (hiddenSet : JsSet) (filterMode : String) (selectedMonthKey : Option String)
    (selectedYear : Option Int) (recentDays : Int) :
    ∀ a ∈ filterAssets tz now assets hiddenSet filterMode selectedMonthKey selectedYear
      recentDays, a.id ∉ hiddenSet :=
  fun _ h => (mem_filterAssets_imp h).2

/-- Witness of C1 on a two-element list with one hidden id. -/
theorem filterAssets_excludes_hidden_witness :
    libraryAsset "a" 5 ∈ filterAssets utc 0 [libraryAsset "a" 5, libraryAsset "b" 7] ["b"]
        "all" none none 30 ∧ (libraryAsset "a" 5).id ∉ (["b"] : JsSet) :=
  ⟨by decide,
    filterAssets_excludes_hidden utc 0 [libraryAsset "a" 5, libraryAsset "b" 7] ["b"] "all"
      none none 30 (libraryAsset "a" 5) (by decide)⟩

/-- C2: for a non-null asset and a random value in `[0, 1)`, `handleKeep` and
`handleDelete` do not throw, and afterwards `asset.id` is in `hiddenIds` and
`currentAssetId` is not `asset.id`. -/
theorem handle_hides_and_moves_on (tz : Int → Int) (now : Int) (r : ℚ) (rd prev : Session)
    (asset : Asset) (h0 : 0 ≤ r) (h1 : r < 1) :
    ((handleKeep tz now r rd (some asset) prev).thrown = none ∧
      asset.id ∈ (handleKeep tz now r rd (some asset) prev).state.hiddenIds ∧
      (handleKeep tz now r rd (some asset) prev).state.currentAssetId ≠ some asset.id) ∧
    ((handleDelete tz now r rd (some asset) prev).thrown = none ∧
      asset.id ∈ (handleDelete tz now r rd (some asset) prev).state.hiddenIds ∧
      (handleDelete tz now r rd (some asset) prev).state.currentAssetId ≠ some asset.id) := by
  constructor
  · obtain ⟨next, heq, hne⟩ :=
      pickNextAfterHide_spec tz now r rd asset.id none (markHidden asset.id prev) h0 h1
    simp only [handleKeep]
    rw [heq]
    exact ⟨rfl, JsSet.mem_add_self _ _, hne⟩
  · simp only [handleDelete]
    split
    · obtain ⟨next, heq, hne⟩ := pickNextAfterHide_spec tz now r rd asset.id none
        { markHidden asset.id prev with
          pickedAssets := (markHidden asset.id prev).pickedAssets.filter
            fun item => item.id ≠ asset.id } h0 h1
      rw [heq]
      exact ⟨rfl, JsSet.mem_add_self _ _, hne⟩
    · obtain ⟨next, heq, hne⟩ := pickNextAfterHide_spec tz now r rd asset.id none
        (markHidden asset.id { prev with deleteQueue := prev.deleteQueue.add asset.id }) h0 h1
      rw [heq]
      exact ⟨rfl, JsSet.mem_add_self _ _, hne⟩

/-- Witness of C2: keeping the current asset `a` of the sample session with
random value one half. -/
theorem handle_hides_and_moves_on_witness :
    (0 : ℚ) ≤ 1 / 2 ∧ (1 / 2 : ℚ) < 1 ∧
    (handleKeep utc 0 (1 / 2) sampleSession (some (libraryAsset "a" 200))
        { sampleSession with currentAssetId := some "a" }).state.currentAssetId
        ≠ some (libraryAsset "a" 200).id :=
  ⟨by norm_num, by norm_num,
    (handle_hides_and_moves_on utc 0 (1 / 2) sampleSession
      { sampleSession with currentAssetId := some "a" } (libraryAsset "a" 200)
      (by norm_num) (by norm_num)).1.2.2⟩

/-- C3: `handleDelete` of an asset whose `canDelete` is `false` leaves the
delete queue unchanged; and from an empty queue, every id that a sequence of
keep/delete/import operations puts into the queue is the id of an asset that
was passed to `handleDelete` with `canDelete` other than `false`, so that the
id of an asset with `canDelete === false` is never queued, as long as ids
identify assets among those passed to `handleDelete`. -/
theorem canDelete_false_never_queued (tz : Int → Int) :
    (∀ (now : Int) (r : ℚ) (rd prev : Session) (asset : Asset),
      asset.canDelete = some false →
        (handleDelete tz now r rd (some asset) prev).state.deleteQueue = prev.deleteQueue) ∧
    (∀ (ops : List Op) (s : Session), s.deleteQueue = [] →
      ∀ id ∈ (runOps tz ops s).deleteQueue,
        ∃ a ∈ deletedAssets ops, a.id = id ∧ a.canDelete ≠ some false) ∧
    (∀ (ops : List Op) (s : Session) (b : Asset), s.deleteQueue = [] →
      b.canDelete = some false → (∀ a ∈ deletedAssets ops, a.id = b.id → a = b) →
        b.id ∉ (runOps tz ops s).deleteQueue) := by
  have key : ∀ (ops : List Op) (s : Session), s.deleteQueue = [] →
      ∀ id ∈ (runOps tz ops s).deleteQueue,
        ∃ a ∈ deletedAssets ops, a.id = id ∧ a.canDelete ≠ some false := by
    intro ops s hs id hid
    rcases runOps_deleteQueue_provenance tz ops s id hid with h | ⟨a, ha, haid, himp⟩
    · rw [hs] at h; cases h
    · refine ⟨a, ha, haid, fun hc => ?_⟩
      rw [isImported_of_canDelete_false a hc] at himp
      cases himp
  refine ⟨?_, key, ?_⟩
  · intro now r rd prev asset h
    exact handleDelete_deleteQueue_imported tz now r rd asset prev
      (isImported_of_canDelete_false asset h)
  · intro ops s b hs hb huniq hmem
    obtain ⟨a, ha, haid, hne⟩ := key ops s hs b.id hmem
    rw [huniq a ha haid] at hne
    exact hne hb

/-- Witness of C3: deleting the library asset `a` and then the imported asset
`p` of the sample session leaves the id of `p` out of the queue. -/
theorem canDelete_false_never_queued_witness :
    sampleSession.deleteQueue = [] ∧ (importedAsset "p" 150).canDelete = some false ∧
    (importedAsset "p" 150).id ∉ (runOps utc
      [Op.delete 0 0 sampleSession (some (libraryAsset "a" 200)),
        Op.delete 0 0 sampleSession (some (importedAsset "p" 150))]
      sampleSession).deleteQueue :=
  ⟨rfl, rfl,
    (canDelete_false_never_queued utc).2.2
      [Op.delete 0 0 sampleSession (some (libraryAsset "a" 200)),
        Op.delete 0 0 sampleSession (some (importedAsset "p" 150))]
      sampleSession (importedAsset "p" 150) rfl rfl (by decide)⟩

/-- C4: the merged view is a permutation of `library ++ imported`, is sorted
by `creationTime` in non-increasing order, and is stable: for every
timestamp the assets carrying it appear in the merged view exactly as they
do in the concatenation, and two assets with equal timestamps that appear
in the concatenation in the order `a`, `b` appear in the merged view in
that order. -/
theorem combinedAssets_sorted_stable (lib imp : List Asset) :
    (combinedAssets lib imp).Perm (lib ++ imp) ∧
    (combinedAssets lib imp).Pairwise (fun a b => b.creationTime ≤ a.creationTime) ∧
    (∀ t : Int, (combinedAssets lib imp).filter (fun a => decide (a.creationTime = t))
      = (lib ++ imp).filter (fun a => decide (a.creationTime = t))) ∧
    (∀ a b : Asset, a.creationTime = b.creationTime → List.Sublist [a, b] (lib ++ imp) →
      List.Sublist [a, b] (combinedAssets lib imp)) := by
  have hperm : (combinedAssets lib imp).Perm (lib ++ imp) := by
    unfold combinedAssets jsSort
    exact List.perm_insertionSort _ _
  refine ⟨hperm, ?_, ?_, ?_⟩
  · haveI := compareCreation_total
    haveI := compareCreation_trans
    have hs := List.sorted_insertionSort (fun a b => compareCreation a b ≤ 0) (lib ++ imp)
    unfold combinedAssets jsSort
    exact List.Pairwise.imp (fun {a b} h => (compareCreation_le_iff a b).1 h) hs
  · intro t
    have hsub : List.Sublist ((lib ++ imp).filter fun a => decide (a.creationTime = t))
        (combinedAssets lib imp) := by
      apply sublist_combinedAssets lib imp _ (List.filter_sublist _)
      rw [List.pairwise_iff_forall_sublist]
      intro a b hab
      have ha : a ∈ (lib ++ imp).filter fun a => decide (a.creationTime = t) :=
        hab.subset (by simp)
      have hb : b ∈ (lib ++ imp).filter fun a => decide (a.creationTime = t) :=
        hab.subset (by simp)
      rw [List.mem_filter] at ha hb
      have h1 : a.creationTime = t := by simpa using ha.2
      have h2 : b.creationTime = t := by simpa using hb.2
      omega
    have hsub2 := hsub.filter (fun a => decide (a.creationTime = t))
    rw [List.filter_filter] at hsub2
    simp only [Bool.and_self] at hsub2
    exact (hsub2.eq_of_length ((hperm.filter _).length_eq).symm).symm
  · intro a b hab hsub
    apply sublist_combinedAssets lib imp _ hsub
    simp [hab]

/-- Witness of C4: two library assets and one imported asset, all with the
same timestamp, keep their order. -/
theorem combinedAssets_sorted_stable_witness :
    (libraryAsset "a" 5).creationTime = (importedAsset "p" 5).creationTime ∧
    List.Sublist [libraryAsset "a" 5, importedAsset "p" 5]
      ([libraryAsset "a" 5, libraryAsset "b" 5] ++ [importedAsset "p" 5]) ∧
    List.Sublist [libraryAsset "a" 5, importedAsset "p" 5]
      (combinedAssets [libraryAsset "a" 5, libraryAsset "b" 5] [importedAsset "p" 5]) :=
  ⟨rfl, by decide,
    (combinedAssets_sorted_stable [libraryAsset "a" 5, libraryAsset "b" 5]
      [importedAsset "p" 5]).2.2.2 _ _ rfl (by decide)⟩

/-- C5: `handleDelete` of an imported asset (`canDelete === false` or
`isPicked`) leaves in `pickedAssets` exactly the items whose id differs from
`asset.id`, in their original order, so none with `asset.id`; and when the
asset belongs to the imported collection and ids are unique across library
and imported assets, `filterAssets` over the new merged view with an empty
hidden set never yields `asset.id`, whatever the filter mode. -/
theorem handleDelete_imported_removes (tz : Int → Int) (now : Int) (r : ℚ) (rd prev : Session)
    (asset : Asset) (himp : asset.canDelete = some false ∨ asset.isPicked = some true) :
    (∀ x ∈ (handleDelete tz now r rd (some asset) prev).state.pickedAssets,
      x.id ≠ asset.id) ∧
    (handleDelete tz now r rd (some asset) prev).state.pickedAssets
      = prev.pickedAssets.filter (fun x => decide (x.id ≠ asset.id)) ∧
    (asset ∈ prev.pickedAssets →
      ((prev.allAssets ++ prev.pickedAssets).map Asset.id).Nodup →
      ∀ (now2 : Int) (filterMode : String) (selectedMonthKey : Option String)
        (selectedYear : Option Int) (recentDays : Int),
        ∀ x ∈ filterAssets tz now2 (handleDelete tz now r rd (some asset) prev).state.combined
          [] filterMode selectedMonthKey selectedYear recentDays, x.id ≠ asset.id) := by
  obtain ⟨cur, hst⟩ := handleDelete_imported_state tz now r rd asset prev
    ((isImported_iff asset).2 himp)
  rw [hst]
  refine ⟨?_, rfl, ?_⟩
  · intro x hx
    simpa using (List.mem_filter.1 hx).2
  · intro hmem hnd now2 filterMode selectedMonthKey selectedYear recentDays x hx
    have hx2 := (mem_filterAssets_imp hx).1
    simp only [Session.combined, mem_combinedAssets] at hx2
    rcases hx2 with hx2 | hx2
    · intro heq
      rw [List.map_append, List.nodup_append] at hnd
      exact hnd.2.2 (List.mem_map_of_mem Asset.id hx2)
        (heq ▸ List.mem_map_of_mem Asset.id hmem)
    · simpa using (List.mem_filter.1 hx2).2

/-- Witness of C5: after deleting the imported asset `p` of the sample
session, the merged view filtered with an empty hidden set has no `p`. -/
theorem handleDelete_imported_removes_witness :
    (importedAsset "p" 150).canDelete = some false ∧
    importedAsset "p" 150 ∈ sampleSession.pickedAssets ∧
    ((sampleSession.allAssets ++ sampleSession.pickedAssets).map Asset.id).Nodup ∧
    ∀ x ∈ filterAssets utc 0 (handleDelete utc 0 0 sampleSession
        (some (importedAsset "p" 150)) sampleSession).state.combined [] "all" none none 30,
      x.id ≠ (importedAsset "p" 150).id :=
  ⟨rfl, by decide, by decide,
    (handleDelete_imported_removes utc 0 0 sampleSession sampleSession
      (importedAsset "p" 150) (Or.inl rfl)).2.2 (by decide) (by decide) 0 "all" none none 30⟩

/-- C6: `handleDelete` of an asset `B` with `canDelete` true and `isPicked`
not set adds `B.id` to `deleteQueue` and to `hiddenIds`; a following
`executeDeletions` in which permission is granted and the batch delete
succeeds calls the batch delete with the queued ids, leaves in `allAssets`
exactly the items whose id is not in the queue, in order (so none with
`B.id`), empties `deleteQueue` and leaves `hiddenIds` unchanged. -/
theorem delete_then_flush (tz : Int → Int) (now : Int) (r : ℚ) (rd prev : Session)
    (B : Asset) (host : MediaLibrary) (hc : B.canDelete = some true)
    (hp : B.isPicked ≠ some true) :
    let s1 := (handleDelete tz now r rd (some B) prev).state
    B.id ∈ s1.deleteQueue ∧ B.id ∈ s1.hiddenIds ∧
    ((ensureDeletePermission host).2 = .ok true →
      host.deleteAssets s1.deleteQueue = .ok () →
      (executeDeletions host s1 s1).outcome = .deleted ∧
      HostCall.deleteAssets s1.deleteQueue ∈ (executeDeletions host s1 s1).calls ∧
      (executeDeletions host s1 s1).state.allAssets
        = s1.allAssets.filter (fun x => decide (x.id ∉ s1.deleteQueue)) ∧
      (∀ x ∈ (executeDeletions host s1 s1).state.allAssets, x.id ≠ B.id) ∧
      (executeDeletions host s1 s1).state.deleteQueue = [] ∧
      (executeDeletions host s1 s1).state.hiddenIds = s1.hiddenIds) := by
  intro s1
  have himp : isImported B = false := by
    cases hi : isImported B with
    | false => rfl
    | true =>
      rcases (isImported_iff B).1 hi with h | h
      · rw [hc] at h; cases h
      · exact absurd h hp
  obtain ⟨cur, hst⟩ := handleDelete_library_state tz now r rd B prev himp
  have hq : B.id ∈ s1.deleteQueue := by
    show B.id ∈ (handleDelete tz now r rd (some B) prev).state.deleteQueue
    rw [hst]
    exact JsSet.mem_add_self _ _
  have hh : B.id ∈ s1.hiddenIds := by
    show B.id ∈ (handleDelete tz now r rd (some B) prev).state.hiddenIds
    rw [hst]
    exact JsSet.mem_add_self _ _
  refine ⟨hq, hh, ?_⟩
  intro hperm hdel
  have hsize : ¬ s1.deleteQueue.size = 0 := by
    intro h0
    have : s1.deleteQueue = [] := List.length_eq_zero.1 h0
    rw [this] at hq
    cases hq
  have hfl : executeDeletions host s1 s1 =
      ⟨{ s1 with
          allAssets := s1.allAssets.filter fun item => !s1.deleteQueue.has item.id
          deleteQueue := []
          isDeleting := false },
        (ensureDeletePermission host).1 ++ [.deleteAssets s1.deleteQueue, .alert "Success"],
        .deleted⟩ := by
    unfold executeDeletions
    rw [if_neg hsize]
    rcases hE : ensureDeletePermission host with ⟨calls, res⟩
    rw [hE] at hperm
    simp only at hperm
    subst hperm
    simp only [hdel]
  rw [hfl]
  have hfilter : (s1.allAssets.filter fun item => !s1.deleteQueue.has item.id)
      = s1.allAssets.filter (fun x => decide (x.id ∉ s1.deleteQueue)) := by
    apply List.filter_congr
    intro x _
    simp [JsSet.has]
  refine ⟨rfl, by simp, hfilter, ?_, rfl, rfl⟩
  intro x hx heq
  have hx2 : x ∈ s1.allAssets.filter (fun x => decide (x.id ∉ s1.deleteQueue)) := by
    rw [← hfilter]; exact hx
  have := (List.mem_filter.1 hx2).2
  simp only [decide_eq_true_eq] at this
  exact this (heq ▸ hq)

/-- Witness of C6: deleting the library asset `b` of the sample session and
flushing against a host that grants full access. -/
theorem delete_then_flush_witness :
    (libraryAsset "b" 100).canDelete = some true ∧
    (libraryAsset "b" 100).isPicked ≠ some true ∧
    (ensureDeletePermission grantingHost).2 = .ok true ∧
    (executeDeletions grantingHost
      (handleDelete utc 0 0 sampleSession (some (libraryAsset "b" 100)) sampleSession).state
      (handleDelete utc 0 0 sampleSession (some (libraryAsset "b" 100)) sampleSession).state
      ).state.deleteQueue = [] :=
  ⟨rfl, by decide, rfl,
    ((delete_then_flush utc 0 0 sampleSession sampleSession (libraryAsset "b" 100)
      grantingHost rfl (by decide)).2.2 rfl rfl).2.2.2.2.1⟩

/-- C7: with a non-empty queue, when `executeDeletions` ends because the
permission is denied, because the batch delete call fails, or because a
permission call fails, it has changed neither `deleteQueue` nor `allAssets`
(nor anything else of the state it started from), `isDeleting` is false
afterwards, and the run is reported as denied or failed. -/
theorem flush_failure_keeps_queue (host : MediaLibrary) (rd prev : Session)
    (hne : rd.deleteQueue ≠ [])
    (hend : (ensureDeletePermission host).2 = .ok false ∨
      ((ensureDeletePermission host).2 = .ok true ∧
        ∃ e, host.deleteAssets rd.deleteQueue = .error e) ∨
      ∃ e, (ensureDeletePermission host).2 = .error e) :
    (executeDeletions host rd prev).state.deleteQueue = prev.deleteQueue ∧
    (executeDeletions host rd prev).state.allAssets = prev.allAssets ∧
    (executeDeletions host rd prev).state.isDeleting = false ∧
    (executeDeletions host rd prev).state = { prev with isDeleting := false } ∧
    ((executeDeletions host rd prev).outcome = .permissionDenied ∨
      ∃ e, (executeDeletions host rd prev).outcome = .failed e) := by
  have hsize : ¬ rd.deleteQueue.size = 0 := fun h0 => hne (List.length_eq_zero.1 h0)
  unfold executeDeletions
  rw [if_neg hsize]
  rcases hE : ensureDeletePermission host with ⟨calls, res⟩
  rw [hE] at hend
  simp only at hend
  rcases hend with h | ⟨h, e, he⟩ | ⟨e, h⟩
  · subst h
    exact ⟨rfl, rfl, rfl, rfl, Or.inl rfl⟩
  · subst h
    simp [he]
  · subst h
    exact ⟨rfl, rfl, rfl, rfl, Or.inr ⟨e, rfl⟩⟩

/-- Witness of C7: flushing the queued session against a host that refuses. -/
theorem flush_failure_keeps_queue_witness :
    queuedSession.deleteQueue ≠ [] ∧ (ensureDeletePermission denyingHost).2 = .ok false ∧
    (executeDeletions denyingHost queuedSession queuedSession).state.deleteQueue
      = queuedSession.deleteQueue :=
  ⟨by decide, rfl,
    (flush_failure_keeps_queue denyingHost queuedSession queuedSession (by decide)
      (Or.inl rfl)).1⟩

/-- C8: with an empty queue `executeDeletions` makes no call to the host and
returns the state it started from. -/
theorem flush_empty_noop (host : MediaLibrary) (rd prev : Session)
    (hq : rd.deleteQueue = []) :
    (executeDeletions host rd prev).calls = [] ∧
    (executeDeletions host rd prev).state = prev ∧
    (executeDeletions host rd prev).outcome = .skipped := by
  unfold executeDeletions
  rw [if_pos (by rw [hq]; rfl)]
  exact ⟨rfl, rfl, rfl⟩

/-- Witness of C8: flushing the sample session, whose queue is empty. -/
theorem flush_empty_noop_witness :
    sampleSession.deleteQueue = [] ∧
    (executeDeletions grantingHost sampleSession sampleSession).calls = [] ∧
    (executeDeletions grantingHost sampleSession sampleSession).state = sampleSession ∧
    (executeDeletions grantingHost sampleSession sampleSession).outcome = .skipped :=
  ⟨rfl, flush_empty_noop grantingHost sampleSession sampleSession rfl⟩

theorem roundNat_exact (a : Nat) (h : a < 2 ^ 53) : roundNat a = a := by
  have h2 : ulpFrom a a 1 = 1 := by
    cases a with
    | zero => rfl
    | succ k =>
      simp only [ulpFrom, Nat.div_one]
      rw [if_pos h]
  simp [roundNat, h2, Nat.mod_one]

/-- An integer of magnitude below `2 ^ 53` is a double. -/
theorem JsNumber.ofInt_exact (n : Int) (h : n.natAbs < 2 ^ 53) :
    JsNumber.ofInt n = .finite n := by
  have hlim : ¬ n.natAbs ≥ doubleLimit := by
    have : (2 : Nat) ^ 53 ≤ doubleLimit := by norm_num [doubleLimit]
    omega
  unfold JsNumber.ofInt
  simp only [roundNat_exact _ h]
  rw [if_neg hlim]
  congr 1
  split <;> omega

/-- Within the range where doubles are exact, the product and the cutoff of
the `recent` filter are the exact integers. -/
theorem recent_exact (now recentDays creationTime : Int)
    (hc : (creationTime * 1000).natAbs < 2 ^ 53) (hn : now.natAbs < 2 ^ 53)
    (hd : (recentDays * 86400000).natAbs < 2 ^ 53)
    (hcut : (now - recentDays * 86400000).natAbs < 2 ^ 53) :
    creationMs creationTime = .finite (creationTime * 1000) ∧
    recentCutoff now recentDays = .finite (now - recentDays * 86400000) := by
  constructor
  · unfold creationMs
    rw [JsNumber.ofInt_exact creationTime (by omega)]
    show JsNumber.ofInt (creationTime * 1000) = _
    exact JsNumber.ofInt_exact _ hc
  · unfold recentCutoff
    rw [JsNumber.ofInt_exact now hn, JsNumber.ofInt_exact recentDays (by omega)]
    have h1 : (JsNumber.finite recentDays).mul (.finite 24) = .finite (recentDays * 24) :=
      JsNumber.ofInt_exact _ (by omega)
    have h2 : (JsNumber.finite (recentDays * 24)).mul (.finite 60)
        = .finite (recentDays * 24 * 60) := JsNumber.ofInt_exact _ (by omega)
    have h3 : (JsNumber.finite (recentDays * 24 * 60)).mul (.finite 60)
        = .finite (recentDays * 24 * 60 * 60) := JsNumber.ofInt_exact _ (by omega)
    have h4 : (JsNumber.finite (recentDays * 24 * 60 * 60)).mul (.finite 1000)
        = .finite (recentDays * 24 * 60 * 60 * 1000) := JsNumber.ofInt_exact _ (by omega)
    rw [h1, h2, h3, h4]
    have h5 : (JsNumber.finite now).sub (.finite (recentDays * 24 * 60 * 60 * 1000))
        = .finite (now - recentDays * 24 * 60 * 60 * 1000) :=
      JsNumber.ofInt_exact _ (by omega)
    rw [h5]
    congr 1
    omega

/-- Counterexample to C9 as stated: with `now = 72057596629931008` ms and
`recentDays = 30` the cutoff is 72057594037931008; the asset created at second
72057594037931 has the exact product 72057594037931000, below the cutoff, but
the double product is 72057594037931008, and `filterAssets` keeps the asset. -/
theorem recent_keeps_rounded_product :
    JsNumber.ofInt 72057596629931008 = .finite 72057596629931008 ∧
    JsNumber.ofInt 72057594037931 = .finite 72057594037931 ∧
    recentCutoff 72057596629931008 30 = .finite 72057594037931008 ∧
    creationMs 72057594037931 = .finite 72057594037931008 ∧
    libraryAsset "big" 72057594037931 ∈
      filterAssets utc 72057596629931008 [libraryAsset "big" 72057594037931] [] "recent"
        none none 30 ∧
    ¬ ((libraryAsset "big" 72057594037931).creationTime * 1000
      ≥ 72057596629931008 - 30 * 86400000) := by
  refine ⟨by decide, by decide, by decide, by decide, by decide, by decide⟩

/-- C9, amended: in mode `recent` a non-hidden asset of the input is in the
output of `filterAssets` exactly when the double `creationTime * 1000` is at
least the double `now - recentDays * 24 * 60 * 60 * 1000`; when
`creationTime * 1000`, `now`, `recentDays * 86400000` and
`now - recentDays * 86400000` are integers of magnitude below `2 ^ 53` this is
`creationTime * 1000 ≥ now - recentDays * 86400000`; and for `now` from 0 to
below `2 ^ 53` and `recentDays = 30` an asset created exactly 29 days before
`now` is included and one created exactly 31 days before `now` is excluded. -/
theorem filterAssets_recent_cutoff (tz : Int → Int) (now : Int) (assets : List Asset)
    (hiddenSet : JsSet) (selectedMonthKey : Option String) (selectedYear : Option Int)
    (a : Asset) (ha : a ∈ assets) (hh : a.id ∉ hiddenSet) :
    (∀ recentDays : Int,
      a ∈ filterAssets tz now assets hiddenSet "recent" selectedMonthKey selectedYear recentDays
        ↔ (creationMs a.creationTime).ge (recentCutoff now recentDays) = true) ∧
    (∀ recentDays : Int, (a.creationTime * 1000).natAbs < 2 ^ 53 → now.natAbs < 2 ^ 53 →
      (recentDays * 86400000).natAbs < 2 ^ 53 →
      (now - recentDays * 86400000).natAbs < 2 ^ 53 →
      (a ∈ filterAssets tz now assets hiddenSet "recent" selectedMonthKey selectedYear
          recentDays
        ↔ a.creationTime * 1000 ≥ now - recentDays * 86400000)) ∧
    (0 ≤ now → now < 2 ^ 53 → a.creationTime * 1000 = now - 29 * 86400000 →
      a ∈ filterAssets tz now assets hiddenSet "recent" selectedMonthKey selectedYear 30) ∧
    (0 ≤ now → now < 2 ^ 53 → a.creationTime * 1000 = now - 31 * 86400000 →
      a ∉ filterAssets tz now assets hiddenSet "recent" selectedMonthKey selectedYear 30) := by
  have key : ∀ recentDays : Int,
      a ∈ filterAssets tz now assets hiddenSet "recent" selectedMonthKey selectedYear recentDays
        ↔ (creationMs a.creationTime).ge (recentCutoff now recentDays) = true := by
    intro recentDays
    have hf : hiddenSet.has a.id = false := by simp [JsSet.has, hh]
    unfold filterAssets
    rw [List.mem_filter]
    simp [hf, ha]
  have exact : ∀ recentDays : Int, (a.creationTime * 1000).natAbs < 2 ^ 53 →
      now.natAbs < 2 ^ 53 → (recentDays * 86400000).natAbs < 2 ^ 53 →
      (now - recentDays * 86400000).natAbs < 2 ^ 53 →
      (a ∈ filterAssets tz now assets hiddenSet "recent" selectedMonthKey selectedYear
          recentDays
        ↔ a.creationTime * 1000 ≥ now - recentDays * 86400000) := by
    intro recentDays hc hn hd hcut
    obtain ⟨h1, h2⟩ := recent_exact now recentDays a.creationTime hc hn hd hcut
    rw [key recentDays, h1, h2]
    simp [JsNumber.ge]
  refine ⟨key, exact, ?_, ?_⟩
  · intro h0 h1 hct
    exact (exact 30 (by omega) (by omega) (by omega) (by omega)).2 (by omega)
  · intro h0 h1 hct hin
    have := (exact 30 (by omega) (by omega) (by omega) (by omega)).1 hin
    omega

/-- Witness of C9: at `now = 31 * 86400000` ms an asset created at second 0 is
31 days old and is left out of the 30-day window. -/
theorem filterAssets_recent_cutoff_witness :
    libraryAsset "a" 0 ∈ [libraryAsset "a" 0] ∧ (libraryAsset "a" 0).id ∉ ([] : JsSet) ∧
    (0 : Int) ≤ 31 * 86400000 ∧ (31 * 86400000 : Int) < 2 ^ 53 ∧
    (libraryAsset "a" 0).creationTime * 1000 = 31 * 86400000 - 31 * 86400000 ∧
    libraryAsset "a" 0 ∉
      filterAssets utc (31 * 86400000) [libraryAsset "a" 0] [] "recent" none none 30 :=
  ⟨by decide, by decide, by decide, by decide, by decide,
    (filterAssets_recent_cutoff utc (31 * 86400000) [libraryAsset "a" 0] [] none none
      (libraryAsset "a" 0) (by decide) (by decide)).2.2.2 (by decide) (by decide)
      (by decide)⟩

/-- C10: `filterAssets` in mode `month` with `selectedMonthKey = null`, and in
mode `year` with `selectedYear = null`, returns the empty sequence. -/
theorem filterAssets_unset_selection_empty (tz : Int → Int) (now : Int) (assets : List Asset)
    (hiddenSet : JsSet) (selectedMonthKey : Option String) (selectedYear : Option Int)
    (recentDays : Int) :
    filterAssets tz now assets hiddenSet "month" none selectedYear recentDays = [] ∧
    filterAssets tz now assets hiddenSet "year" selectedMonthKey none recentDays = [] := by
  constructor
  · unfold filterAssets
    rw [List.filter_eq_nil_iff]
    intro a _
    simp
  · unfold filterAssets
    rw [List.filter_eq_nil_iff]
    intro a _
    simp


/-! ## Refinement of the reference filter -/

theorem getMonthKey_ne_empty (tz : Int → Int) (a : Asset) : getMonthKey tz a ≠ "" := by
  intro h
  have hl := congrArg String.length h
  simp only [getMonthKey, String.length_append] at hl
  have h1 : "-".length = 1 := by decide
  have h0 : "".length = 0 := by decide
  omega

/-- C11: the output of `filterAssets` is a sublist of its input (elements
removed, none reordered) in every mode; in mode `favorites`, and in mode
`month` with a set `selectedMonthKey`, it equals the reference filter of the
specification, that is the non-hidden assets with `isFavorite === true` or
`favorite === true`, and the non-hidden assets whose month key equals
`selectedMonthKey`.  For the library A (January 2024), B and C (February
2024, C with `favorite = true`), whose merged view is B, C, A, the candidates
are C for `favorites` and B, C for month `2024-02`. -/
theorem filterAssets_refines_reference (tz : Int → Int) (now : Int) (assets : List Asset)
    (hiddenSet : JsSet) (selectedMonthKey : Option String) (selectedYear : Option Int)
    (recentDays : Int) :
    (∀ filterMode : String, List.Sublist
      (filterAssets tz now assets hiddenSet filterMode selectedMonthKey selectedYear recentDays)
      assets) ∧
    filterAssets tz now assets hiddenSet "favorites" selectedMonthKey selectedYear recentDays
      = referenceFilter tz now assets hiddenSet "favorites" selectedMonthKey selectedYear
          recentDays ∧
    referenceFilter tz now assets hiddenSet "favorites" selectedMonthKey selectedYear recentDays
      = assets.filter (fun a => decide (a.id ∉ hiddenSet) &&
          (a.isFavorite == some true || a.favorite == some true)) ∧
    (∀ key : String,
      filterAssets tz now assets hiddenSet "month" (some key) selectedYear recentDays
        = referenceFilter tz now assets hiddenSet "month" (some key) selectedYear recentDays ∧
      referenceFilter tz now assets hiddenSet "month" (some key) selectedYear recentDays
        = assets.filter (fun a => decide (a.id ∉ hiddenSet) && (getMonthKey tz a == key))) ∧
    combinedAssets [assetA, assetB, assetC] [] = [assetB, assetC, assetA] ∧
    filterAssets utc now (combinedAssets [assetA, assetB, assetC] []) [] "favorites"
      selectedMonthKey selectedYear recentDays = [assetC] ∧
    filterAssets utc now (combinedAssets [assetA, assetB, assetC] []) [] "month"
      (some "2024-02") selectedYear recentDays = [assetB, assetC] := by
  have hmerge : combinedAssets [assetA, assetB, assetC] [] = [assetB, assetC, assetA] := by
    decide
  refine ⟨fun _ => List.filter_sublist _, ?_, ?_, ?_, hmerge, ?_, ?_⟩
  · unfold filterAssets referenceFilter
    apply List.filter_congr
    intro a _
    by_cases hh : a.id ∈ hiddenSet <;> simp [JsSet.has, hh, referencePolicy]
  · unfold referenceFilter
    apply List.filter_congr
    intro a _
    simp [referencePolicy]
  · intro key
    constructor
    · unfold filterAssets referenceFilter
      apply List.filter_congr
      intro a _
      by_cases hh : a.id ∈ hiddenSet
      · simp [JsSet.has, hh]
      · by_cases hk : key = ""
        · subst hk
          simp [JsSet.has, hh, referencePolicy, getMonthKey_ne_empty]
        · simp [JsSet.has, hh, referencePolicy, hk]
    · unfold referenceFilter
      apply List.filter_congr
      intro a _
      simp [referencePolicy]
  · rw [hmerge]; rfl
  · rw [hmerge]; rfl

/-! ## The preview list of `pickNextAfterHide` -/

theorem orderedInsert_of_forall_rel {α : Type} (r : α → α → Prop) [DecidableRel r] (a : α)
    (l : List α) (h : ∀ c ∈ l, r a c) : l.orderedInsert r a = a :: l := by
  cases l with
  | nil => rfl
  | cons c t =>
    have hc : r a c := h c (List.mem_cons_self c t)
    simp [List.orderedInsert, hc]

/-- Filtering commutes with the insertion of an element into a sorted list. -/
theorem filter_orderedInsert {α : Type} (r : α → α → Prop) [DecidableRel r]
    (htrans : ∀ a b c, r a b → r b c → r a c) (p : α → Bool) (a : α) :
    ∀ l : List α, l.Sorted r →
      (l.orderedInsert r a).filter p
        = if p a then (l.filter p).orderedInsert r a else l.filter p := by
  intro l
  induction l with
  | nil => intro _; by_cases hp : p a <;> simp [hp]
  | cons b t ih =>
    intro hs
    have hbt : ∀ c ∈ t, r b c := List.rel_of_sorted_cons hs
    have iht := ih hs.of_cons
    by_cases hab : r a b
    · have hins : (b :: t).orderedInsert r a = a :: b :: t := by
        simp [List.orderedInsert, hab]
      rw [hins]
      by_cases hp : p a
      · rw [if_pos hp, List.filter_cons_of_pos hp]
        symm
        apply orderedInsert_of_forall_rel
        intro c hc
        rcases List.mem_cons.1 (List.mem_filter.1 hc).1 with hcb | hct
        · rw [hcb]; exact hab
        · exact htrans a b c hab (hbt c hct)
      · rw [if_neg hp, List.filter_cons_of_neg hp]
    · have hins : (b :: t).orderedInsert r a = b :: t.orderedInsert r a := by
        simp [List.orderedInsert, hab]
      rw [hins]
      by_cases hpb : p b
      · rw [List.filter_cons_of_pos hpb, List.filter_cons_of_pos hpb, iht]
        by_cases hp : p a
        · simp [hp, List.orderedInsert, hab]
        · simp [hp]
      · rw [List.filter_cons_of_neg hpb, List.filter_cons_of_neg hpb, iht]

/-- Filtering commutes with the stable sort. -/
theorem filter_insertionSort {α : Type} (r : α → α → Prop) [DecidableRel r]
    (htotal : ∀ a b, r a b ∨ r b a) (htrans : ∀ a b c, r a b → r b c → r a c)
    (p : α → Bool) (l : List α) :
    (l.insertionSort r).filter p = (l.filter p).insertionSort r := by
  haveI : IsTotal α r := ⟨htotal⟩
  haveI : IsTrans α r := ⟨htrans⟩
  induction l with
  | nil => rfl
  | cons a t ih =>
    have hcons : (a :: t).insertionSort r = (t.insertionSort r).orderedInsert r a := rfl
    rw [hcons, filter_orderedInsert r htrans p a _ (List.sorted_insertionSort r t), ih]
    by_cases hp : p a
    · rw [if_pos hp, List.filter_cons_of_pos hp]; rfl
    · rw [if_neg hp, List.filter_cons_of_neg hp]

/-- Filtering the merged view is the merge of the filtered collections. -/
theorem filter_combinedAssets (p : Asset → Bool) (lib imp : List Asset) :
    (combinedAssets lib imp).filter p = combinedAssets (lib.filter p) (imp.filter p) := by
  unfold combinedAssets jsSort
  rw [filter_insertionSort _ compareCreation_total.total compareCreation_trans.trans,
    List.filter_append]

/-- Removing from the imported collection the items with a hidden id does
not change the filtered merged view. -/
theorem filterAssets_combined_remove (tz : Int → Int) (now : Int) (lib imp : List Asset)
    (hiddenSet : JsSet) (filterMode : String) (selectedMonthKey : Option String)
    (selectedYear : Option Int) (recentDays : Int) (x : String) (hx : x ∈ hiddenSet) :
    filterAssets tz now (combinedAssets lib (imp.filter fun item => item.id ≠ x)) hiddenSet
        filterMode selectedMonthKey selectedYear recentDays
      = filterAssets tz now (combinedAssets lib imp) hiddenSet filterMode selectedMonthKey
          selectedYear recentDays := by
  unfold filterAssets
  rw [filter_combinedAssets, filter_combinedAssets, List.filter_filter]
  congr 1
  apply List.filter_congr
  intro a _
  by_cases ha : a.id = x
  · have : hiddenSet.has a.id = true := by rw [ha]; exact (JsSet.has_eq_true_iff _ _).2 hx
    simp [this]
  · simp [ha]

/-- The button path: for a handler created in the render of the state it
updates, the list `pickNextAfterHide(asset.id)` computes (`filterAssets` over
the current merged view with `hiddenIds` plus `asset.id`) equals
`filteredAssets` recomputed from the state after `handleKeep`, and equals
`filteredAssets` recomputed from the state after `handleDelete`, at the same
current time. -/
theorem preview_equals_committed (tz : Int → Int) (now : Int) (r : ℚ) (s : Session)
    (asset : Asset) :
    nextListAfterHide tz now s asset.id none
      = filteredAssets tz now (handleKeep tz now r s (some asset) s).state ∧
    nextListAfterHide tz now s asset.id none
      = filteredAssets tz now (handleDelete tz now r s (some asset) s).state := by
  constructor
  · obtain ⟨cur, h⟩ := pickNextAfterHide_frame tz now r s asset.id none (markHidden asset.id s)
    simp only [handleKeep]
    rw [h]
    rfl
  · cases himp : isImported asset with
    | true =>
      obtain ⟨cur, h⟩ := handleDelete_imported_state tz now r s asset s himp
      rw [h]
      simp only [filteredAssets, nextListAfterHide, Session.combined]
      exact (filterAssets_combined_remove tz now s.allAssets s.pickedAssets
        (s.hiddenIds.add asset.id) s.filterMode s.selectedMonthKey s.selectedYear
        s.recentDays asset.id (JsSet.mem_add_self _ _)).symm
    | false =>
      obtain ⟨cur, h⟩ := handleDelete_library_state tz now r s asset s himp
      rw [h]
      rfl

/-! ## The re-pick effect -/

/-- With `r` in `[0, 1)` the pick on a non-empty list is the element at
index `floor(r * length)`, which is within bounds. -/
theorem pickRandomAsset_index (r : ℚ) (list : List Asset) (hne : list ≠ [])
    (h0 : 0 ≤ r) (h1 : r < 1) :
    0 ≤ ⌊r * (list.length : ℚ)⌋ ∧ ⌊r * (list.length : ℚ)⌋ < (list.length : Int) ∧
    ∃ a ∈ list, jsIndex list ⌊r * (list.length : ℚ)⌋ = some a ∧
      pickRandomAsset r list = .ok (some a.id) := by
  have hpos : 0 < list.length := List.length_pos.2 hne
  obtain ⟨hb0, hb1⟩ := floor_mul_length_bounds r list.length hpos h0 h1
  obtain ⟨a, ha, hidx⟩ := jsIndex_of_bounds list _ hb0 hb1
  refine ⟨hb0, hb1, a, ha, hidx, ?_⟩
  unfold pickRandomAsset
  rw [if_neg (by omega), hidx]

/-- Counterexample to C13 as stated: with the prior id the empty string and
an asset with the empty id among the candidates, the prior id is present but
the effect re-picks and selects `a`. -/
theorem repick_replaces_empty_id :
    (0 : ℚ) ≤ 0 ∧ (0 : ℚ) < 1 ∧
    (∃ a ∈ [libraryAsset "a" 1, libraryAsset "" 2], some a.id = (some "" : Option String)) ∧
    repickEffect 0 [libraryAsset "a" 1, libraryAsset "" 2] (some "") = .ok (some "a") ∧
    repickEffect 0 [libraryAsset "a" 1, libraryAsset "" 2] (some "")
      ≠ .ok (some "") := by
  have h : repickEffect 0 [libraryAsset "a" 1, libraryAsset "" 2] (some "")
      = .ok (some "a") := by
    simp [repickEffect, truthyString, pickRandomAsset, jsIndex, libraryAsset]
  refine ⟨le_refl _, by norm_num, ⟨libraryAsset "" 2, by simp, rfl⟩, h, ?_⟩
  rw [h]
  intro hc
  injection hc with hc
  injection hc with hc
  exact absurd hc (by decide)

/-- C13, amended: for `r` in `[0, 1)` the re-pick effect does not throw and
leaves `currentAssetId` null when the candidate sequence is empty, and
otherwise the id of one of its elements: the unchanged prior id when that id
is a non-empty string present in the sequence, and else (prior id null, the
empty string, or absent from the sequence) the id of the element at index
`floor(r * length)`, which is within bounds. -/
theorem repickEffect_spec (r : ℚ) (list : List Asset) (cur : Option String)
    (h0 : 0 ≤ r) (h1 : r < 1) :
    (list = [] → repickEffect r list cur = .ok none) ∧
    (list ≠ [] → ∃ a ∈ list, repickEffect r list cur = .ok (some a.id)) ∧
    (∀ id : String, cur = some id → id ≠ "" → (∃ a ∈ list, a.id = id) →
      repickEffect r list cur = .ok (some id)) ∧
    (list ≠ [] → (cur = none ∨ cur = some "" ∨ ∀ a ∈ list, some a.id ≠ cur) →
      0 ≤ ⌊r * (list.length : ℚ)⌋ ∧ ⌊r * (list.length : ℚ)⌋ < (list.length : Int) ∧
      ∃ a ∈ list, jsIndex list ⌊r * (list.length : ℚ)⌋ = some a ∧
        repickEffect r list cur = .ok (some a.id)) := by
  have hkeep : ∀ id : String, cur = some id → id ≠ "" → (∃ a ∈ list, a.id = id) →
      repickEffect r list cur = .ok (some id) := by
    intro id hcur hid hex
    obtain ⟨a, ha, haid⟩ := hex
    have hlen : ¬ list.length = 0 := by
      intro h
      rw [List.length_eq_zero.1 h] at ha
      cases ha
    subst hcur
    have hany : list.any (fun asset => some asset.id == some id) = true := by
      rw [List.any_eq_true]
      exact ⟨a, ha, by simp [haid]⟩
    unfold repickEffect
    rw [if_neg hlen, hany]
    simp [truthyString, hid]
  have hpick : list ≠ [] → (cur = none ∨ cur = some "" ∨ ∀ a ∈ list, some a.id ≠ cur) →
      repickEffect r list cur = pickRandomAsset r list := by
    intro hne hc
    have hlen : ¬ list.length = 0 := fun h => hne (List.length_eq_zero.1 h)
    unfold repickEffect
    rw [if_neg hlen]
    rcases hc with hc | hc | hc
    · simp [hc, truthyString]
    · simp [hc, truthyString]
    · have hany : list.any (fun asset => some asset.id == cur) = false := by
        rw [List.any_eq_false]
        intro a ha
        simpa using hc a ha
      simp [hany]
  refine ⟨?_, ?_, hkeep, ?_⟩
  · intro hl
    simp [repickEffect, hl]
  · intro hne
    by_cases hc : cur = none ∨ cur = some "" ∨ ∀ a ∈ list, some a.id ≠ cur
    · obtain ⟨_, _, a, ha, _, hp⟩ := pickRandomAsset_index r list hne h0 h1
      exact ⟨a, ha, by rw [hpick hne hc, hp]⟩
    · simp only [not_or, not_forall] at hc
      obtain ⟨hn, he, a, ha, haeq⟩ := hc
      have haeq2 : some a.id = cur := not_not.1 haeq
      refine ⟨a, ha, hkeep a.id haeq2.symm ?_ ⟨a, ha, rfl⟩⟩
      intro hempty
      apply he
      rw [← haeq2, hempty]
  · intro hne hc
    obtain ⟨hb0, hb1, a, ha, hidx, hp⟩ := pickRandomAsset_index r list hne h0 h1
    exact ⟨hb0, hb1, a, ha, hidx, by rw [hpick hne hc, hp]⟩

/-- Witness of C13: the prior id `b` is a candidate and stays selected. -/
theorem repickEffect_spec_witness :
    (0 : ℚ) ≤ 1 / 2 ∧ (1 / 2 : ℚ) < 1 ∧ (some "b" : Option String) = some "b" ∧
    ("b" : String) ≠ "" ∧
    (∃ a ∈ [libraryAsset "a" 200, libraryAsset "b" 100], a.id = "b") ∧
    repickEffect (1 / 2) [libraryAsset "a" 200, libraryAsset "b" 100] (some "b")
      = .ok (some "b") :=
  ⟨by norm_num, by norm_num, rfl, by decide, ⟨libraryAsset "b" 100, by decide, rfl⟩,
    (repickEffect_spec (1 / 2) [libraryAsset "a" 200, libraryAsset "b" 100] (some "b")
      (by norm_num) (by norm_num)).2.2.1 "b" rfl (by decide)
      ⟨libraryAsset "b" 100, by decide, rfl⟩⟩

/-! ## The permission check -/

theorem ensureDeletePermission_calls (host : MediaLibrary) (ids : List String) :
    HostCall.deleteAssets ids ∉ (ensureDeletePermission host).1 := by
  unfold ensureDeletePermission
  repeat' split
  all_goals simp

/-- Counterexample to C14 as stated: the first response grants access without
`accessPrivileges`; the check returns true and the batch delete is issued,
although the only response observed does not have `accessPrivileges` equal to
`all`. -/
theorem permission_true_without_all :
    (ensureDeletePermission unscopedHost).2 = .ok true ∧
    (observedResponses unscopedHost).getLast?
      = some { status := "granted", accessPrivileges := none } ∧
    (¬ ∃ p, (observedResponses unscopedHost).getLast? = some p ∧ p.status = "granted" ∧
      p.accessPrivileges = some "all") ∧
    HostCall.deleteAssets ["b"] ∈ (executeDeletions unscopedHost queuedSession
      queuedSession).calls := by
  refine ⟨rfl, rfl, ?_, by decide⟩
  rintro ⟨p, hp, _, hall⟩
  have hp2 : some ({ status := "granted", accessPrivileges := none } : PermissionResponse)
      = some p := hp
  injection hp2 with hp2
  rw [← hp2] at hall
  cases hall

/-- C14, amended: `ensureDeletePermission` returns true only if the last
permission response it observed has `accessPrivileges` equal to `all` or not
set (`undefined`, or the empty string in the response of the first query),
and that response has status `granted` unless it is the answer to the second
query, made after the picker for a first response with status `granted`;
whenever the check does not return true (it returns false or a permission
call is rejected), `executeDeletions` issues no batch delete. -/
theorem ensureDeletePermission_spec (host : MediaLibrary) :
    ((ensureDeletePermission host).2 = .ok true →
      ∃ p, (observedResponses host).getLast? = some p ∧
        (p.accessPrivileges = some "all" ∨ p.accessPrivileges = none ∨
          (p.accessPrivileges = some "" ∧ host.current = .ok p)) ∧
        (p.status = "granted" ∨
          ∃ current, host.current = .ok current ∧ current.status = "granted" ∧
            host.updated = .ok p)) ∧
    ((ensureDeletePermission host).2 ≠ .ok true →
      ∀ (rd prev : Session) (ids : List String),
        HostCall.deleteAssets ids ∉ (executeDeletions host rd prev).calls) := by
  constructor
  · intro h
    unfold ensureDeletePermission at h
    unfold observedResponses
    rcases hcur : host.current with e | current
    · rw [hcur] at h; simp at h
    · rw [hcur] at h
      simp only at h ⊢
      by_cases hs : current.status = "granted"
      · rw [if_neg (by simpa using hs)] at h ⊢
        by_cases hpart : (truthyString current.accessPrivileges &&
            current.accessPrivileges != some "all") = true
        · rw [if_pos hpart] at h ⊢
          rcases hupd : host.updated with e | updated
          · rw [hupd] at h; simp at h
          · rw [hupd] at h
            simp only at h ⊢
            refine ⟨updated, rfl, Or.inl ?_, Or.inr ⟨current, rfl, hs, rfl⟩⟩
            simpa using h
        · rw [if_neg hpart] at h ⊢
          refine ⟨current, rfl, ?_, Or.inl hs⟩
          rcases hap : current.accessPrivileges with _ | ap
          · exact Or.inr (Or.inl rfl)
          · rw [hap] at hpart
            by_cases hempty : ap = ""
            · subst hempty
              refine Or.inr (Or.inr ⟨rfl, ?_⟩)
              cases current
              simp_all
            · left
              simp [truthyString, hempty] at hpart
              rw [hpart]
      · rw [if_pos (by simpa using hs)] at h ⊢
        rcases hnext : host.next with e | next
        · rw [hnext] at h; simp at h
        · rw [hnext] at h
          simp only at h ⊢
          by_cases hn : next.status = "granted"
          · rw [if_neg (by simpa using hn)] at h
            refine ⟨next, rfl, ?_, Or.inl hn⟩
            simp at h
            rcases h with h | h
            · exact Or.inl h
            · exact Or.inr (Or.inl h)
          · rw [if_pos (by simpa using hn)] at h
            simp at h
  · intro h rd prev ids
    unfold executeDeletions
    split
    · simp
    · have hens := ensureDeletePermission_calls host ids
      rcases hE : ensureDeletePermission host with ⟨calls, res⟩
      rw [hE] at h hens
      simp only at h hens
      rcases res with e | b
      · simp [hens]
      · cases b with
        | false => simp [hens]
        | true => exact absurd rfl h

/-- Witness of C14: a host that refuses: no batch delete is issued. -/
theorem ensureDeletePermission_spec_witness :
    (ensureDeletePermission denyingHost).2 ≠ .ok true ∧
    HostCall.deleteAssets ["b"] ∉ (executeDeletions denyingHost queuedSession
      queuedSession).calls :=
  ⟨by simp [ensureDeletePermission, denyingHost, refused],
    (ensureDeletePermission_spec denyingHost).2
      (by simp [ensureDeletePermission, denyingHost, refused]) queuedSession queuedSession
      ["b"]⟩

/-! ## Decimal notation of numbers -/

theorem digitChar_isDigit (d : Nat) (h : d < 10) : (Nat.digitChar d).isDigit = true := by
  interval_cases d <;> decide

theorem digitChar_value (d : Nat) (h : d < 10) : (Nat.digitChar d).toNat - '0'.toNat = d := by
  interval_cases d <;> decide

theorem toDigitsCore_append (fuel : Nat) : ∀ (n : Nat) (ds : List Char),
    Nat.toDigitsCore 10 fuel n ds = Nat.toDigitsCore 10 fuel n [] ++ ds := by
  induction fuel with
  | zero => intro n ds; simp [Nat.toDigitsCore]
  | succ fuel ih =>
    intro n ds
    simp only [Nat.toDigitsCore]
    split
    · simp
    · rw [ih (n / 10) (Nat.digitChar (n % 10) :: ds), ih (n / 10) [Nat.digitChar (n % 10)]]
      simp

theorem toDigitsCore_isDigit (fuel : Nat) : ∀ (n : Nat),
    ∀ c ∈ Nat.toDigitsCore 10 fuel n [], c.isDigit = true := by
  induction fuel with
  | zero => intro n c hc; simp [Nat.toDigitsCore] at hc
  | succ fuel ih =>
    intro n c hc
    simp only [Nat.toDigitsCore] at hc
    split at hc
    · simp at hc
      rw [hc]
      exact digitChar_isDigit _ (Nat.mod_lt _ (by decide))
    · rw [toDigitsCore_append] at hc
      rcases List.mem_append.1 hc with h | h
      · exact ih _ c h
      · simp at h
        rw [h]
        exact digitChar_isDigit _ (Nat.mod_lt _ (by decide))

theorem decimalValue_append_singleton (l : List Char) (c : Char) :
    decimalValue (l ++ [c]) = 10 * decimalValue l + (c.toNat - '0'.toNat) := by
  simp [decimalValue, List.foldl_append]

theorem toDigitsCore_value (fuel : Nat) : ∀ (n : Nat), n < fuel →
    decimalValue (Nat.toDigitsCore 10 fuel n []) = n := by
  induction fuel with
  | zero => intro n h; omega
  | succ fuel ih =>
    intro n h
    simp only [Nat.toDigitsCore]
    split
    · next hz =>
      have : decimalValue [Nat.digitChar (n % 10)] = (Nat.digitChar (n % 10)).toNat - '0'.toNat := by
        simp [decimalValue]
      rw [this, digitChar_value _ (Nat.mod_lt _ (by decide))]
      omega
    · next hz =>
      rw [toDigitsCore_append, decimalValue_append_singleton, ih (n / 10) (by omega),
        digitChar_value _ (Nat.mod_lt _ (by decide))]
      omega

theorem toDigits_ne_nil (n : Nat) : Nat.toDigits 10 n ≠ [] := by
  unfold Nat.toDigits
  simp only [Nat.toDigitsCore]
  split
  · simp
  · rw [toDigitsCore_append]; simp

theorem natToString_data (n : Nat) : (toString n).data = Nat.toDigits 10 n := by
  show (Nat.repr n).data = _
  simp [Nat.repr, List.asString]

theorem intToString_ofNat (n : Nat) : toString (n : Int) = toString n := by
  rfl

theorem intToString_negSucc (n : Nat) : toString (Int.negSucc n) = "-" ++ toString (n + 1) := by
  rfl

theorem natToString_isDigit (n : Nat) : ∀ c ∈ (toString n).data, c.isDigit = true := by
  rw [natToString_data]
  exact toDigitsCore_isDigit _ n

theorem natToString_value (n : Nat) : decimalValue (toString n).data = n := by
  rw [natToString_data]
  exact toDigitsCore_value _ n (Nat.lt_succ_self n)

theorem natToString_no_dash (n : Nat) : '-' ∉ (toString n).data := by
  intro h
  have := natToString_isDigit n '-' h
  exact absurd this (by decide)

theorem natToString_injective (m n : Nat) (h : toString m = toString n) : m = n := by
  rw [← natToString_value m, ← natToString_value n, h]

theorem intToString_injective (s t : Int) (h : toString s = toString t) : s = t := by
  have hd := congrArg String.data h
  cases s with
  | ofNat a =>
    cases t with
    | ofNat b =>
      have : toString a = toString b := h
      rw [natToString_injective a b this]
    | negSucc b =>
      exfalso
      rw [show toString (Int.ofNat a) = toString a from rfl, intToString_negSucc,
        String.data_append] at hd
      apply natToString_no_dash a
      rw [hd]
      exact List.mem_append_left _ (by decide)
  | negSucc a =>
    cases t with
    | ofNat b =>
      exfalso
      rw [show toString (Int.ofNat b) = toString b from rfl, intToString_negSucc,
        String.data_append] at hd
      apply natToString_no_dash b
      rw [← hd]
      exact List.mem_append_left _ (by decide)
    | negSucc b =>
      rw [intToString_negSucc, intToString_negSucc, String.data_append,
        String.data_append] at hd
      have h2 := List.append_cancel_left hd
      have h3 : a + 1 = b + 1 := natToString_injective _ _ (String.ext h2)
      have : a = b := by omega
      rw [this]

/-- Two lists that agree and end in `c` followed by a run free of `c` have
the same parts. -/
theorem append_cons_inj_last {α : Type} (c : α) :
    ∀ (l1 l2 r1 r2 : List α), c ∉ r1 → c ∉ r2 → l1 ++ c :: r1 = l2 ++ c :: r2 →
      l1 = l2 ∧ r1 = r2 := by
  intro l1
  induction l1 with
  | nil =>
    intro l2 r1 r2 h1 h2 h
    cases l2 with
    | nil => exact ⟨rfl, by simpa using h⟩
    | cons d l2 =>
      exfalso
      simp only [List.nil_append, List.cons_append, List.cons.injEq] at h
      apply h1
      rw [h.2]
      simp
  | cons a l1 ih =>
    intro l2 r1 r2 h1 h2 h
    cases l2 with
    | nil =>
      exfalso
      simp only [List.nil_append, List.cons_append, List.cons.injEq] at h
      apply h2
      rw [← h.2]
      simp
    | cons b l2 =>
      simp only [List.cons_append, List.cons.injEq] at h
      obtain ⟨h3, h4⟩ := ih l2 r1 r2 h1 h2 h.2
      exact ⟨by rw [h.1, h3], h4⟩

/-- The id `picked-<t>-<i>` determines the clock reading and the index. -/
theorem pickedId_injective (t1 t2 : Int) (i1 i2 : Nat)
    (h : "picked-" ++ toString t1 ++ "-" ++ toString i1
      = "picked-" ++ toString t2 ++ "-" ++ toString i2) : t1 = t2 ∧ i1 = i2 := by
  have hd := congrArg String.data h
  simp only [String.data_append] at hd
  simp only [List.append_assoc, List.singleton_append] at hd
  have hd2 := List.append_cancel_left hd
  obtain ⟨h1, h2⟩ := append_cons_inj_last '-' _ _ _ _ (natToString_no_dash i1)
    (natToString_no_dash i2) hd2
  exact ⟨intToString_injective _ _ (String.ext h1), natToString_injective _ _ (String.ext h2)⟩

/-! ## Ids of imported assets -/

theorem importedFrom_mem (clock : Nat → Int) (nowSeconds : Int) (uris : List String) :
    ∀ (index : Nat) (a : Asset), a ∈ importedFrom clock nowSeconds index uris →
      (∃ j, index ≤ j ∧ j < index + uris.length ∧
        a.id = "picked-" ++ toString (clock (j + 1)) ++ "-" ++ toString j) ∧
      a.creationTime = nowSeconds ∧ a.canDelete = some false ∧ a.isPicked = some true := by
  induction uris with
  | nil => intro index a h; simp [importedFrom] at h
  | cons uri rest ih =>
    intro index a h
    simp only [importedFrom, List.mem_cons] at h
    rcases h with h | h
    · subst h
      exact ⟨⟨index, le_refl _, by simp, rfl⟩, rfl, rfl, rfl⟩
    · obtain ⟨⟨j, h1, h2, h3⟩, h4⟩ := ih (index + 1) a h
      exact ⟨⟨j, by omega, by simp only [List.length_cons]; omega, h3⟩, h4⟩

/-- The records of one import have pairwise distinct ids, whatever the
clock reads. -/
theorem importedFrom_nodup (clock : Nat → Int) (nowSeconds : Int) (uris : List String) :
    ∀ index : Nat, ((importedFrom clock nowSeconds index uris).map Asset.id).Nodup := by
  induction uris with
  | nil => intro index; simp [importedFrom]
  | cons uri rest ih =>
    intro index
    simp only [importedFrom, List.map_cons, List.nodup_cons]
    refine ⟨?_, ih (index + 1)⟩
    intro hmem
    obtain ⟨a, ha, haid⟩ := List.mem_map.1 hmem
    obtain ⟨⟨j, h1, _, h3⟩, _⟩ := importedFrom_mem clock nowSeconds rest (index + 1) a ha
    rw [h3] at haid
    have := (pickedId_injective _ _ _ _ haid).2
    omega

theorem handleKeep_pickedAssets (tz : Int → Int) (now : Int) (r : ℚ) (rd : Session)
    (asset : Option Asset) (prev : Session) :
    (handleKeep tz now r rd asset prev).state.pickedAssets = prev.pickedAssets := by
  cases asset with
  | none => rfl
  | some a =>
    obtain ⟨cur, h⟩ := pickNextAfterHide_frame tz now r rd a.id none (markHidden a.id prev)
    simp only [handleKeep]
    rw [h]
    rfl

theorem handleDelete_pickedAssets_sublist (tz : Int → Int) (now : Int) (r : ℚ) (rd : Session)
    (asset : Option Asset) (prev : Session) :
    List.Sublist (handleDelete tz now r rd asset prev).state.pickedAssets
      prev.pickedAssets := by
  cases asset with
  | none => exact List.Sublist.refl _
  | some a =>
    cases himp : isImported a with
    | true =>
      obtain ⟨cur, h⟩ := handleDelete_imported_state tz now r rd a prev himp
      rw [h]
      exact List.filter_sublist _
    | false =>
      obtain ⟨cur, h⟩ := handleDelete_library_state tz now r rd a prev himp
      rw [h]

/-- What `handleImportPhotos` does to the imported collection. -/
theorem handleImportPhotos_pickedAssets (host : ImagePicker) (prev : Session) :
    (handleImportPhotos host prev).pickedAssets = prev.pickedAssets ∨
    (handleImportPhotos host prev).pickedAssets
      = importedFrom host.clock (host.clock 0 / 1000) 0 host.uris ++ prev.pickedAssets := by
  unfold handleImportPhotos
  split
  · exact Or.inl rfl
  · split
    · exact Or.inl rfl
    · exact Or.inr rfl

/-- The invariant of the imported collection: its ids are pairwise distinct
and each was made by one of the imports seen so far. -/
theorem runOps_picked_nodup (tz : Int → Int) (ops : List Op) :
    ∀ (s : Session) (seen : List ImagePicker),
      (s.pickedAssets.map Asset.id).Nodup →
      (∀ a ∈ s.pickedAssets, ∃ h ∈ seen, ∃ j, j < h.uris.length ∧
        a.id = "picked-" ++ toString (h.clock (j + 1)) ++ "-" ++ toString j) →
      (∀ h ∈ seen, ∀ g ∈ importHosts ops, clocksApart h g) →
      (importHosts ops).Pairwise clocksApart →
      ((runOps tz ops s).pickedAssets.map Asset.id).Nodup := by
  induction ops with
  | nil => intro s seen hnd _ _ _; exact hnd
  | cons op rest ih =>
    intro s seen hnd hsrc hseen hpw
    show ((runOps tz rest (op.apply tz s)).pickedAssets.map Asset.id).Nodup
    cases op with
    | keep now r rd asset =>
      apply ih _ seen
      · simpa [Op.apply, handleKeep_pickedAssets] using hnd
      · simpa [Op.apply, handleKeep_pickedAssets] using hsrc
      · simpa [importHosts] using hseen
      · simpa [importHosts] using hpw
    | delete now r rd asset =>
      have hsub := handleDelete_pickedAssets_sublist tz now r rd asset s
      apply ih _ seen
      · exact hnd.sublist (hsub.map Asset.id)
      · intro a ha
        exact hsrc a (hsub.subset ha)
      · simpa [importHosts] using hseen
      · simpa [importHosts] using hpw
    | importPhotos host =>
      simp only [importHosts, List.pairwise_cons] at hpw
      have hseen2 : ∀ h ∈ host :: seen, ∀ g ∈ importHosts rest, clocksApart h g := by
        intro h hh g hg
        rcases List.mem_cons.1 hh with hh | hh
        · rw [hh]; exact hpw.1 g hg
        · exact hseen h hh g (by simp [importHosts, hg])
      rcases handleImportPhotos_pickedAssets host s with hp | hp
      · apply ih _ (host :: seen) _ _ hseen2 hpw.2
        · simpa [Op.apply, hp] using hnd
        · intro a ha
          obtain ⟨h, hh, hj⟩ := hsrc a (by simpa [Op.apply, hp] using ha)
          exact ⟨h, List.mem_cons_of_mem _ hh, hj⟩
      · apply ih _ (host :: seen) _ _ hseen2 hpw.2
        · simp only [Op.apply, hp, List.map_append]
          rw [List.nodup_append]
          refine ⟨importedFrom_nodup _ _ _ 0, hnd, ?_⟩
          intro x hx1 hx2
          obtain ⟨a, ha, hax⟩ := List.mem_map.1 hx1
          obtain ⟨b, hb, hbx⟩ := List.mem_map.1 hx2
          obtain ⟨⟨j, _, hj2, hj3⟩, _⟩ := importedFrom_mem _ _ _ 0 a ha
          obtain ⟨h, hh, k, hk, hkid⟩ := hsrc b hb
          have heq : "picked-" ++ toString (h.clock (k + 1)) ++ "-" ++ toString k
              = "picked-" ++ toString (host.clock (j + 1)) ++ "-" ++ toString j := by
            rw [← hkid, ← hj3, hax, hbx]
          obtain ⟨hc, hkj⟩ := pickedId_injective _ _ _ _ heq
          exact hseen h hh host (by simp [importHosts]) k j hk (by omega) hc
        · intro a ha
          simp only [Op.apply, hp, List.mem_append] at ha
          rcases ha with ha | ha
          · obtain ⟨⟨j, _, hj2, hj3⟩, _⟩ := importedFrom_mem _ _ _ 0 a ha
            exact ⟨host, List.mem_cons_self _ _, j, by omega, hj3⟩
          · obtain ⟨h, hh, hj⟩ := hsrc a ha
            exact ⟨h, List.mem_cons_of_mem _ hh, hj⟩

/-- Counterexample to C12 as stated: two imports of one image each whose
clock reads the same millisecond give both records the id `picked-5-0`. -/
theorem imports_same_clock_collide :
    (runOps utc [Op.importPhotos stoppedClockImport, Op.importPhotos stoppedClockImport]
      Session.initial).pickedAssets.map Asset.id = ["picked-5-0", "picked-5-0"] ∧
    ¬ ((runOps utc [Op.importPhotos stoppedClockImport, Op.importPhotos stoppedClockImport]
      Session.initial).pickedAssets.map Asset.id).Nodup := by
  constructor
  · decide
  · decide

/-- C12, amended: `handleImportPhotos` prepends to `pickedAssets` the records
`importedFrom` builds (or leaves it unchanged); these records have id
`picked-<clock ms>-<index>`, `creationTime` the import time in seconds,
`canDelete = false` and `isPicked = true`, and never share an id with each
other, whatever the clock reads; and after every sequence of keep, delete
and import operations that starts with an empty imported collection, the
ids in `pickedAssets` are pairwise distinct provided the clock readings that
different imports put into their ids are different. -/
theorem imported_ids_distinct (tz : Int → Int) :
    (∀ (host : ImagePicker) (prev : Session),
      (handleImportPhotos host prev).pickedAssets = prev.pickedAssets ∨
      (handleImportPhotos host prev).pickedAssets
        = importedFrom host.clock (host.clock 0 / 1000) 0 host.uris ++ prev.pickedAssets) ∧
    (∀ (clock : Nat → Int) (nowSeconds : Int) (uris : List String),
      ((importedFrom clock nowSeconds 0 uris).map Asset.id).Nodup ∧
      ∀ a ∈ importedFrom clock nowSeconds 0 uris,
        (∃ j, j < uris.length ∧
          a.id = "picked-" ++ toString (clock (j + 1)) ++ "-" ++ toString j) ∧
        a.creationTime = nowSeconds ∧ a.canDelete = some false ∧ a.isPicked = some true) ∧
    (∀ (ops : List Op) (s : Session), s.pickedAssets = [] →
      (importHosts ops).Pairwise clocksApart →
      ((runOps tz ops s).pickedAssets.map Asset.id).Nodup) := by
  refine ⟨handleImportPhotos_pickedAssets, ?_, ?_⟩
  · intro clock nowSeconds uris
    refine ⟨importedFrom_nodup clock nowSeconds uris 0, ?_⟩
    intro a ha
    obtain ⟨⟨j, _, h2, h3⟩, h4⟩ := importedFrom_mem clock nowSeconds uris 0 a ha
    exact ⟨⟨j, by omega, h3⟩, h4⟩
  · intro ops s hs hpw
    apply runOps_picked_nodup tz ops s [] _ _ _ hpw
    · rw [hs]; exact List.nodup_nil
    · intro a ha; rw [hs] at ha; cases ha
    · intro h hh; cases hh

/-- Witness of C12: an import at clock reading 5 followed by one at 6. -/
theorem imported_ids_distinct_witness :
    Session.initial.pickedAssets = [] ∧
    (importHosts [Op.importPhotos stoppedClockImport, Op.importPhotos laterImport]).Pairwise
      clocksApart ∧
    ((runOps utc [Op.importPhotos stoppedClockImport, Op.importPhotos laterImport]
      Session.initial).pickedAssets.map Asset.id).Nodup :=
  ⟨rfl, by simp [importHosts, clocksApart, stoppedClockImport, laterImport],
    (imported_ids_distinct utc).2.2
      [Op.importPhotos stoppedClockImport, Op.importPhotos laterImport] Session.initial rfl
      (by simp [importHosts, clocksApart, stoppedClockImport, laterImport])⟩

/-! ## Month keys and labels -/

set_option maxHeartbeats 4000000 in
theorem dayOfYear_bounds (doe : Int) (h0 : 0 ≤ doe) (h1 : doe ≤ 146096) :
    0 ≤ doe - (365 * ((doe - doe / 1460 + doe / 36524 - doe / 146096) / 365)
      + ((doe - doe / 1460 + doe / 36524 - doe / 146096) / 365) / 4
      - ((doe - doe / 1460 + doe / 36524 - doe / 146096) / 365) / 100) ∧
    doe - (365 * ((doe - doe / 1460 + doe / 36524 - doe / 146096) / 365)
      + ((doe - doe / 1460 + doe / 36524 - doe / 146096) / 365) / 4
      - ((doe - doe / 1460 + doe / 36524 - doe / 146096) / 365) / 100) ≤ 365 := by
  generalize hf : doe / 36524 = f
  generalize hg : doe / 146096 = g
  generalize he : doe / 1460 = e
  generalize hb : (doe - e + f - g) / 365 = b
  generalize hc : b / 4 = c
  generalize hd : b / 100 = d
  have hf0 : 0 ≤ f := by omega
  have hf4 : f ≤ 4 := by omega
  have hg0 : 0 ≤ g := by omega
  have hg1 : g ≤ 1 := by omega
  have hd0 : 0 ≤ d := by omega
  have hd3 : d ≤ 4 := by omega
  interval_cases f <;> interval_cases g <;> interval_cases d <;> omega

/-- The month `civilFromDays` returns is between 1 and 12. -/
theorem civilFromDays_month_bounds (days : Int) :
    1 ≤ (civilFromDays days).2 ∧ (civilFromDays days).2 ≤ 12 := by
  have hdoe0 : 0 ≤ days + 719468 - (days + 719468) / 146097 * 146097 := by omega
  have hdoe1 : days + 719468 - (days + 719468) / 146097 * 146097 ≤ 146096 := by omega
  obtain ⟨hd0, hd1⟩ := dayOfYear_bounds _ hdoe0 hdoe1
  simp only [civilFromDays]
  split <;> omega

theorem splitChars_of_not_mem (sep : Char) : ∀ l : List Char, sep ∉ l →
    splitChars sep l = [l] := by
  intro l
  induction l with
  | nil => intro _; rfl
  | cons c cs ih =>
    intro h
    have hc : c ≠ sep := fun e => h (by rw [e]; exact List.mem_cons_self _ _)
    have hcs : sep ∉ cs := fun e => h (List.mem_cons_of_mem _ e)
    simp [splitChars, hc, ih hcs]

theorem splitChars_append (sep : Char) (b : List Char) : ∀ a : List Char, sep ∉ a →
    ∃ rest, splitChars sep b = rest ∧ splitChars sep (a ++ sep :: b) = a :: rest := by
  intro a
  induction a with
  | nil => intro _; exact ⟨_, rfl, by simp [splitChars]⟩
  | cons c cs ih =>
    intro h
    have hc : c ≠ sep := fun e => h (by rw [e]; exact List.mem_cons_self _ _)
    have hcs : sep ∉ cs := fun e => h (List.mem_cons_of_mem _ e)
    obtain ⟨rest, hr, hs⟩ := ih hcs
    exact ⟨rest, hr, by simp [splitChars, hc, hs]⟩

theorem decimalValue_cons_zero (l : List Char) : decimalValue ('0' :: l) = decimalValue l := by
  simp [decimalValue]

theorem padStart2_natToString (m : Nat) :
    (∀ c ∈ (padStart2 (toString m)).data, c.isDigit = true) ∧
    decimalValue (padStart2 (toString m)).data = m := by
  unfold padStart2
  split
  · next hlt =>
    have hlen : (toString m).length = 1 := by
      have hne := toDigits_ne_nil m
      rw [← natToString_data] at hne
      have : (toString m).length ≠ 0 := by
        intro h0
        apply hne
        exact List.length_eq_zero.1 h0
      omega
    rw [hlen]
    constructor
    · intro c hc
      simp only [String.data_append] at hc
      rcases List.mem_append.1 hc with h | h
      · simp at h; rw [h]; decide
      · exact natToString_isDigit m c h
    · simp only [String.data_append]
      show decimalValue ('0' :: (toString m).data) = m
      rw [decimalValue_cons_zero, natToString_value]
  · exact ⟨natToString_isDigit m, natToString_value m⟩


theorem jsSplit_key (y m : Nat) :
    jsSplit '-' (toString y ++ "-" ++ padStart2 (toString m))
      = [toString y, padStart2 (toString m)] := by
  have hM : '-' ∉ (padStart2 (toString m)).data := fun h =>
    absurd ((padStart2_natToString m).1 '-' h) (by decide)
  obtain ⟨rest, hr, hs⟩ := splitChars_append '-' (padStart2 (toString m)).data
    (toString y).data (natToString_no_dash y)
  rw [splitChars_of_not_mem '-' _ hM] at hr
  unfold jsSplit
  have hdata : (toString y ++ "-" ++ padStart2 (toString m)).data
      = (toString y).data ++ '-' :: (padStart2 (toString m)).data := by
    simp [String.data_append]
  rw [hdata, hs, ← hr]
  rfl

/-- The label of the key of year `y` and month number `m`. -/
theorem formatMonthLabel_key (y m : Nat) :
    formatMonthLabel (toString y ++ "-" ++ padStart2 (toString m))
      = interpolate (jsIndex MONTHS ((m : Int) - 1)) ++ " " ++ toString y := by
  have hne : toString y ++ "-" ++ padStart2 (toString m) ≠ "" := by
    intro h
    have hl := congrArg String.length h
    simp only [String.length_append] at hl
    have h1 : "-".length = 1 := by decide
    have h0 : "".length = 0 := by decide
    omega
  unfold formatMonthLabel
  rw [if_neg hne, jsSplit_key]
  have hall : (padStart2 (toString m)).data.all Char.isDigit = true := by
    rw [List.all_eq_true]
    exact (padStart2_natToString m).1
  simp only [List.getElem?_cons_zero, List.getElem?_cons_succ, jsNumber, hall, if_true,
    (padStart2_natToString m).2]
  rfl


theorem toDigitsCore_length_eq (fuel : Nat) : ∀ (n k : Nat), n < fuel → 10 ^ k ≤ n →
    n < 10 ^ (k + 1) → (Nat.toDigitsCore 10 fuel n []).length = k + 1 := by
  induction fuel with
  | zero => intro n k h; omega
  | succ fuel ih =>
    intro n k hf hlo hhi
    simp only [Nat.toDigitsCore]
    split
    · next hz =>
      have hn : n < 10 := by omega
      cases k with
      | zero => simp
      | succ k =>
        have : 10 ^ (k + 1) ≥ 10 := by
          rw [pow_succ]
          have := Nat.one_le_pow k 10 (by decide)
          omega
        omega
    · next hz =>
      have hn : 10 ≤ n := by omega
      cases k with
      | zero => simp at hhi; omega
      | succ k =>
        rw [toDigitsCore_append, List.length_append, List.length_singleton]
        have h1 : 10 ^ k ≤ n / 10 := by
          rw [Nat.le_div_iff_mul_le (by decide)]
          rw [pow_succ] at hlo
          exact hlo
        have h2 : n / 10 < 10 ^ (k + 1) := by
          rw [Nat.div_lt_iff_lt_mul (by decide)]
          rw [pow_succ] at hhi
          exact hhi
        rw [ih (n / 10) k (by omega) h1 h2]

/-- A year between 1000 and 9999 is written with four digits. -/
theorem natToString_four_digits (n : Nat) (h0 : 1000 ≤ n) (h1 : n ≤ 9999) :
    ∃ a b c d : Char, (toString n).data = [a, b, c, d] ∧ a.isDigit = true ∧
      b.isDigit = true ∧ c.isDigit = true ∧ d.isDigit = true := by
  have hlen : (toString n).data.length = 4 := by
    rw [natToString_data]
    exact toDigitsCore_length_eq (n + 1) n 3 (Nat.lt_succ_self n) (by norm_num; exact h0)
      (by norm_num; omega)
  have hdig := natToString_isDigit n
  rcases hY : (toString n).data with _ | ⟨a, _ | ⟨b, _ | ⟨c, _ | ⟨d, _ | ⟨e, t⟩⟩⟩⟩⟩
  all_goals rw [hY] at hlen hdig
  all_goals simp at hlen
  exact ⟨a, b, c, d, rfl, hdig a (by simp), hdig b (by simp), hdig c (by simp),
    hdig d (by simp)⟩

/-- A month number between 1 and 12 is padded to two digits. -/
theorem padStart2_two_digits (m : Nat) (h0 : 1 ≤ m) (h1 : m ≤ 12) :
    ∃ f g : Char, (padStart2 (toString m)).data = [f, g] ∧ f.isDigit = true ∧
      g.isDigit = true := by
  interval_cases m <;> exact ⟨_, _, rfl, by decide, by decide⟩

theorem isYearMonthKey_key (y m : Nat) (hy0 : 1000 ≤ y) (hy1 : y ≤ 9999) (hm0 : 1 ≤ m)
    (hm1 : m ≤ 12) : isYearMonthKey (toString y ++ "-" ++ padStart2 (toString m)) = true := by
  obtain ⟨a, b, c, d, hY, ha, hb, hc, hd⟩ := natToString_four_digits y hy0 hy1
  obtain ⟨f, g, hM, hf, hg⟩ := padStart2_two_digits m hm0 hm1
  have hdata : (toString y ++ "-" ++ padStart2 (toString m)).data = [a, b, c, d, '-', f, g] := by
    simp only [String.data_append, hY, hM]
    rfl
  unfold isYearMonthKey
  rw [hdata]
  simp [ha, hb, hc, hd, hf, hg]

theorem months_index (mi : Int) (h0 : 0 ≤ mi) (h1 : mi ≤ 11) :
    ∃ name ∈ MONTHS, jsIndex MONTHS mi = some name := by
  interval_cases mi <;> exact ⟨_, by decide, rfl⟩


/-- The key and the month index of an asset whose date is valid. -/
theorem getMonthKey_of_valid (tz : Int → Int) (a : Asset) (y mi : Int)
    (hy : getFullYear tz (a.creationTime * 1000) = some y)
    (hm : getMonth tz (a.creationTime * 1000) = some mi) :
    0 ≤ mi ∧ mi ≤ 11 ∧
    getMonthKey tz a = toString y ++ "-" ++ padStart2 (toString (mi + 1).toNat) := by
  have hb := civilFromDays_month_bounds (localTime tz (a.creationTime * 1000) / msPerDay)
  unfold getMonth at hm
  split at hm
  · injection hm with hm
    have h0 : 0 ≤ mi := by omega
    have h1 : mi ≤ 11 := by omega
    refine ⟨h0, h1, ?_⟩
    have hmi : getMonth tz (a.creationTime * 1000) = some mi := by
      unfold getMonth
      rw [if_pos (by assumption), hm]
    have hcast : mi + 1 = (((mi + 1).toNat : Nat) : Int) := (Int.toNat_of_nonneg (by omega)).symm
    simp only [getMonthKey, hy, hmi, Option.map_some', numberToString]
    rw [hcast]
    rfl
  · cases hm

theorem JsSet.add_nodup (s : JsSet) (x : String) (h : s.Nodup) : (s.add x).Nodup := by
  unfold JsSet.add
  split
  · exact h
  · next hx =>
    rw [List.nodup_append]
    exact ⟨h, List.nodup_singleton x, by simpa using hx⟩

theorem monthKeys_fold (tz : Int → Int) (combined : List Asset) :
    ∀ acc : JsSet, acc.Nodup →
      (combined.foldl (fun keys asset => keys.add (getMonthKey tz asset)) acc).Nodup ∧
      ∀ key, key ∈ combined.foldl (fun keys asset => keys.add (getMonthKey tz asset)) acc
        ↔ key ∈ acc ∨ ∃ a ∈ combined, getMonthKey tz a = key := by
  induction combined with
  | nil => intro acc h; exact ⟨h, fun key => by simp⟩
  | cons a rest ih =>
    intro acc h
    obtain ⟨h1, h2⟩ := ih (acc.add (getMonthKey tz a)) (JsSet.add_nodup _ _ h)
    refine ⟨h1, fun key => ?_⟩
    simp only [List.foldl_cons]
    rw [h2 key, JsSet.mem_add_iff]
    constructor
    · rintro ((h | h) | ⟨b, hb, hk⟩)
      · exact Or.inl h
      · exact Or.inr ⟨a, List.mem_cons_self _ _, h.symm⟩
      · exact Or.inr ⟨b, List.mem_cons_of_mem _ hb, hk⟩
    · rintro (h | ⟨b, hb, hk⟩)
      · exact Or.inl (Or.inl h)
      · rcases List.mem_cons.1 hb with hb | hb
        · exact Or.inl (Or.inr (by rw [← hk, hb]))
        · exact Or.inr ⟨b, hb, hk⟩

theorem compareKeys_le_iff (a b : String) : compareKeys a b ≤ 0 ↔ b ≤ a := by
  unfold compareKeys
  split
  · next h => simp [not_le.2 h]
  · next h => simp [not_lt.1 h]

theorem monthOptions_keys (tz : Int → Int) (combined : List Asset) :
    (monthOptions tz combined).map MonthOption.key
      = jsSort compareKeys (monthKeys tz combined) := by
  unfold monthOptions
  rw [List.map_map]
  exact List.map_id _

/-- Counterexample to C15 as stated: an asset of January 10000 has the key
`10000-01`, whose year is not four digits, and an asset of January of the
year -1 has the key `-1-01` and the label `Jan `, which lacks the year. -/
theorem monthOptions_year_out_of_range :
    monthOptions utc [libraryAsset "x" 253402300800]
      = [{ key := "10000-01", label := "Jan 10000" }] ∧
    isYearMonthKey "10000-01" = false ∧
    getFullYear utc ((libraryAsset "y" (-62198755200)).creationTime * 1000) = some (-1) ∧
    monthOptions utc [libraryAsset "y" (-62198755200)]
      = [{ key := "-1-01", label := "Jan " }] ∧
    isYearMonthKey "-1-01" = false ∧
    ("Jan " : String) ≠ "Jan" ++ " " ++ toString (-1 : Int) := by
  refine ⟨by decide, by decide, by decide, by decide, by decide, by decide⟩

/-- C15, amended: `monthOptions` has exactly one entry per distinct month key
occurring among the assets, in strictly descending order of the key strings,
each labelled by `formatMonthLabel` of its key; for an asset with a valid
date the key is the decimal year, `-`, and the month number padded to two
digits, it is four digits, `-`, two digits when the year is between 1000 and
9999, and when the year is not negative the label is the three-letter
English month name of that month, a space, and the year (`Feb 2024` for the
key `2024-02`). -/
theorem monthOptions_spec (tz : Int → Int) (combined : List Asset) :
    ((monthOptions tz combined).map MonthOption.key).Nodup ∧
    (∀ key, key ∈ (monthOptions tz combined).map MonthOption.key
      ↔ ∃ a ∈ combined, getMonthKey tz a = key) ∧
    ((monthOptions tz combined).map MonthOption.key).Pairwise (fun k1 k2 => k2 < k1) ∧
    (∀ e ∈ monthOptions tz combined, e.label = formatMonthLabel e.key) ∧
    (∀ a ∈ combined, ∀ y mi : Int, getFullYear tz (a.creationTime * 1000) = some y →
      getMonth tz (a.creationTime * 1000) = some mi →
      ({ key := getMonthKey tz a, label := formatMonthLabel (getMonthKey tz a) } : MonthOption)
        ∈ monthOptions tz combined ∧
      getMonthKey tz a = toString y ++ "-" ++ padStart2 (toString (mi + 1)) ∧
      (1000 ≤ y → y ≤ 9999 → isYearMonthKey (getMonthKey tz a) = true) ∧
      (0 ≤ y → ∃ name ∈ MONTHS, jsIndex MONTHS mi = some name ∧
        formatMonthLabel (getMonthKey tz a) = name ++ " " ++ toString y)) ∧
    formatMonthLabel "2024-02" = "Feb 2024" := by
  obtain ⟨hnd, hmem⟩ := monthKeys_fold tz combined [] List.nodup_nil
  have hkeys := monthOptions_keys tz combined
  have hperm : (jsSort compareKeys (monthKeys tz combined)).Perm (monthKeys tz combined) :=
    List.perm_insertionSort _ _
  have hmemkeys : ∀ key, key ∈ (monthOptions tz combined).map MonthOption.key
      ↔ ∃ a ∈ combined, getMonthKey tz a = key := by
    intro key
    rw [hkeys, hperm.mem_iff]
    have := hmem key
    simpa [monthKeys] using this
  have hnodup : ((monthOptions tz combined).map MonthOption.key).Nodup := by
    rw [hkeys]
    exact hperm.nodup_iff.2 hnd
  refine ⟨hnodup, hmemkeys, ?_, ?_, ?_, by decide⟩
  · haveI : IsTotal String (fun a b => compareKeys a b ≤ 0) :=
      ⟨fun a b => by simp only [compareKeys_le_iff]; exact le_total b a⟩
    haveI : IsTrans String (fun a b => compareKeys a b ≤ 0) :=
      ⟨fun a b c => by simp only [compareKeys_le_iff]; exact fun h1 h2 => le_trans h2 h1⟩
    have hs := List.sorted_insertionSort (fun a b => compareKeys a b ≤ 0)
      (monthKeys tz combined)
    have hs2 : ((monthOptions tz combined).map MonthOption.key).Pairwise
        (fun k1 k2 => compareKeys k1 k2 ≤ 0) := by
      rw [hkeys]; exact hs
    have hboth := hs2.and hnodup
    exact hboth.imp fun {k1 k2} h =>
      lt_of_le_of_ne ((compareKeys_le_iff k1 k2).1 h.1) (Ne.symm h.2)
  · intro e he
    unfold monthOptions at he
    obtain ⟨key, _, hk⟩ := List.mem_map.1 he
    rw [← hk]
  · intro a ha y mi hy hm
    obtain ⟨h0, h1, hkey⟩ := getMonthKey_of_valid tz a y mi hy hm
    have hcast : mi + 1 = (((mi + 1).toNat : Nat) : Int) :=
      (Int.toNat_of_nonneg (by omega)).symm
    refine ⟨?_, ?_, ?_, ?_⟩
    · have hin : getMonthKey tz a ∈ (monthOptions tz combined).map MonthOption.key :=
        (hmemkeys _).2 ⟨a, ha, rfl⟩
      rw [hkeys] at hin
      unfold monthOptions
      exact List.mem_map.2 ⟨getMonthKey tz a, hin, rfl⟩
    · rw [hkey]
      conv_rhs => rw [hcast]
      rfl
    · intro hy0 hy1
      have hycast : y = ((y.toNat : Nat) : Int) := (Int.toNat_of_nonneg (by omega)).symm
      rw [hkey, hycast]
      exact isYearMonthKey_key y.toNat (mi + 1).toNat (by omega) (by omega) (by omega) (by omega)
    · intro hy0
      obtain ⟨name, hname, hidx⟩ := months_index mi h0 h1
      refine ⟨name, hname, hidx, ?_⟩
      have hycast : y = ((y.toNat : Nat) : Int) := (Int.toNat_of_nonneg hy0).symm
      rw [hkey, hycast]
      have hlabel := formatMonthLabel_key y.toNat (mi + 1).toNat
      have hmi : (((mi + 1).toNat : Nat) : Int) - 1 = mi := by omega
      rw [hmi, hidx] at hlabel
      exact hlabel

/-- Witness of C15: asset B, of February 2024. -/
theorem monthOptions_spec_witness :
    assetB ∈ [assetB] ∧ getFullYear utc (assetB.creationTime * 1000) = some 2024 ∧
    getMonth utc (assetB.creationTime * 1000) = some 1 ∧ (1000 : Int) ≤ 2024 ∧
    (2024 : Int) ≤ 9999 ∧ isYearMonthKey (getMonthKey utc assetB) = true :=
  ⟨by decide, by decide, by decide, by decide, by decide,
    ((monthOptions_spec utc [assetB]).2.2.2.2.1 assetB (by decide) 2024 1 (by decide)
      (by decide)).2.2.1 (by decide) (by decide)⟩

/-! ## The preview list on the swipe path -/

/-- The handlers of the swipe gesture compute an empty preview list, since
the merged view of the first render is empty. -/
theorem nextListAfterHide_initial (tz : Int → Int) (now : Int) (assetId : String) :
    nextListAfterHide tz now Session.initial assetId none = [] := rfl

/-- C16, at the failing input: a swipe to the right on the current asset `a`
of the sample session.  The `handleKeep` kept by the gesture responder
computes the preview list from the first render, which is empty, and sets
`currentAssetId` to `null`; `filteredAssets` recomputed from the committed
state is `p`, `b`, which is also what the handler of the current render (the
button path) computes as its preview. -/
theorem swipe_preview_is_stale :
    nextListAfterHide utc 0 Session.initial (libraryAsset "a" 200).id none = [] ∧
    (onPanResponderRelease utc 0 (1 / 2) 200 (some (libraryAsset "a" 200))
        { sampleSession with currentAssetId := some "a" }).state
      = { sampleSession with hiddenIds := ["a"], currentAssetId := none } ∧
    filteredAssets utc 0 (onPanResponderRelease utc 0 (1 / 2) 200
        (some (libraryAsset "a" 200)) { sampleSession with currentAssetId := some "a" }).state
      = [importedAsset "p" 150, libraryAsset "b" 100] ∧
    nextListAfterHide utc 0 { sampleSession with currentAssetId := some "a" }
        (libraryAsset "a" 200).id none
      = [importedAsset "p" 150, libraryAsset "b" 100] := by
  have hstate : (onPanResponderRelease utc 0 (1 / 2) 200 (some (libraryAsset "a" 200))
        { sampleSession with currentAssetId := some "a" }).state
      = { sampleSession with hiddenIds := ["a"], currentAssetId := none } := by
    have hdx : (200 : ℚ) > SWIPE_THRESHOLD := by norm_num [SWIPE_THRESHOLD]
    unfold onPanResponderRelease
    rw [if_pos hdx]
    rfl
  refine ⟨rfl, hstate, ?_, by decide⟩
  rw [hstate]
  decide

end ImageDeleter
